import Mathlib

/-!
Shallow embedding of `dspy/primitives/assertions.py` (assertion-driven
backtracking retry engine) together with proofs about its claims.

Python dictionaries are modelled as insertion-ordered association lists,
predictor `forward` entry points as an inductive wrapper type, and the
ambient execution (the wrapped pipeline function plus the trace produced
per attempt) as an oracle `behavior : Nat → FuncOutcome ρ` giving, for each
attempt index, either a result, an assertion failure carrying the message
and the trace visible at failure time, or a non-assertion exception.
The wrapped function does not itself mutate predictor state; only the
orchestrator's mutation steps act on the stage map.
-/

namespace DspyAssertions

/-! ## Association-list model of Python dicts -/

/-- Lookup in an insertion-ordered association list (`k in d` / `d[k]`). -/
def dictGet {κ β : Type} [DecidableEq κ] (k : κ) : List (κ × β) → Option β
  | [] => none
  | e :: es => if e.1 = k then some e.2 else dictGet k es

/-- Remove a key (`del d[k]` / `d.pop(k, None)`); a no-op when absent. -/
def dictPop {κ β : Type} [DecidableEq κ] (k : κ) : List (κ × β) → List (κ × β)
  | [] => []
  | e :: es => if e.1 = k then dictPop k es else e :: dictPop k es

/-- Replace the value stored at a present key, keeping its position. -/
def dictReplace {κ β : Type} [DecidableEq κ] (k : κ) (v : β) :
    List (κ × β) → List (κ × β)
  | [] => []
  | e :: es => if e.1 = k then (k, v) :: dictReplace k v es else e :: dictReplace k v es

/-- Python dict assignment `d[k] = v`: replace in place when the key is
present, append at the end otherwise. -/
def dictInsert {κ β : Type} [DecidableEq κ] (l : List (κ × β)) (k : κ) (v : β) :
    List (κ × β) :=
  if (dictGet k l).isSome then dictReplace k v l else l ++ [(k, v)]

/-- Python `d.update(e)`: insert every entry of `e` in order. -/
def dictUpdate {κ β : Type} [DecidableEq κ] (l e : List (κ × β)) : List (κ × β) :=
  e.foldl (fun acc kv => dictInsert acc kv.1 kv.2) l

/-- Python `d.setdefault(k, v)` applied for every entry of `ds`. -/
def setdefaults {κ β : Type} [DecidableEq κ] (kw ds : List (κ × β)) : List (κ × β) :=
  ds.foldl (fun acc kv => if (dictGet kv.1 acc).isSome then acc else acc ++ [kv]) kw

/-! ## Fields and signatures (templates)

Modelled from the spec: the field classes (`dspy.InputField`,
`dspy.OutputField`, `dsp.Type`) and `dsp.Template` live in this repository
outside the provided source file.  The spec says a stage's contract is an
ordered mapping of named fields partitioned into input fields and output
fields; a template is its instruction text plus that ordered field map. -/

inductive FieldKind : Type where
  | input : FieldKind
  | output : FieldKind
deriving DecidableEq

/-- Modelled from the spec: a named field descriptor, with its role
(input or output), its label text (`prefix=` in the source, renamed here)
and its description. -/
structure Field where
  kind : FieldKind
  pfx : String
  desc : String
deriving DecidableEq

/-- Modelled from the spec: `dsp.Template` as instruction text plus the
insertion-ordered field map (`kwargs`). -/
structure Template where
  instructions : String
  kwargs : List (String × Field)
deriving DecidableEq

/-- `isinstance(v, dspy.InputField)` test of `_extend_predictor_signature`. -/
def isInputE (e : String × Field) : Bool :=
  decide (e.2.kind = FieldKind.input)

/-- `isinstance(v, (dsp.Type, dspy.OutputField))` test, i.e. a non-input
(output-role) entry in the two-kind partition of the spec. -/
def isOutputE (e : String × Field) : Bool :=
  decide (e.2.kind = FieldKind.output)

/-- Input entries other than the injected `feedback` field. -/
def isKeptInputE (e : String × Field) : Bool :=
  isInputE e && decide (e.1 ≠ "feedback")

/-- The feedback field built before each retry:
`dspy.InputField(prefix="Instruction:", desc="Some instructions you must satisfy")`. -/
def feedbackField : Field :=
  { kind := FieldKind.input, pfx := "Instruction:",
    desc := "Some instructions you must satisfy" }

/-- `_extend_predictor_signature` as a function on the signature: rebuild
the field map as (input fields, then the new fields via dict update, then
the output-role fields) and return the new template. -/
def extend_predictor_signature (t : Template) (fields : List (String × Field)) :
    Template :=
  { instructions := t.instructions,
    kwargs := dictUpdate (dictUpdate (t.kwargs.filter isInputE) fields)
      (t.kwargs.filter isOutputE) }

/-- `_revert_predictor_signature` as a function on the signature: pop each
named key (a no-op when absent) and rebuild the template. -/
def revert_predictor_signature (t : Template) (keys : List String) : Template :=
  { instructions := t.instructions,
    kwargs := keys.foldl (fun acc k => dictPop k acc) t.kwargs }

/-! ## Forward entry points -/

/-- A predictor's `forward` entry point: either one of the externally owned
original callables (identified by an opaque token) or the wrapper installed
by `_wrap_forward_with_set_fields`, which records the default keyword
arguments it enforces around the prior entry point. -/
inductive Forward : Type where
  | base : Nat → Forward
  | wrapped : List (String × String) → Forward → Forward
deriving DecidableEq

/-- The keyword arguments finally received by the underlying original
`forward` when the entry point is invoked with `kw`: each wrapper applies
`kwargs.setdefault(arg, value)` for its recorded defaults, then delegates. -/
def baseArgs : Forward → List (String × String) → List (String × String)
  | Forward.base _, kw => kw
  | Forward.wrapped ds f, kw => baseArgs f (setdefaults kw ds)

/-! ## Predictors (stages) -/

/-- A pipeline stage: its contract (`extended_signature`), its `forward`
entry point, and its configuration mapping (`get_config`/`update_config`). -/
structure Predictor where
  extended_signature : Template
  forward : Forward
  config : List (String × Rat)
deriving DecidableEq

/-- The shared, externally owned stage map: stage identity → stage. -/
abbrev Stages := Nat → Predictor

/-- In-place mutation of one stage of the shared map. -/
def setStage (st : Stages) (p : Nat) (pr : Predictor) : Stages :=
  fun q => if q = p then pr else st q

/-- `predictor.update_config(temperature=t)`. -/
def updateTempPred (pr : Predictor) (t : Rat) : Predictor :=
  { pr with config := dictInsert pr.config "temperature" t }

/-- `_wrap_forward_with_set_fields(predictor, default_args)`. -/
def wrap_forward_with_set_fields (pr : Predictor)
    (defaults : List (String × String)) : Predictor :=
  { pr with forward := Forward.wrapped defaults pr.forward }

/-- The policy-4 per-retry mutation of the blamed predictor: extend the
signature with the feedback field, then wrap `forward` so that `feedback`
defaults to the latest error message. -/
def mutatePred (pr : Predictor) (em : String) : Predictor :=
  { pr with
    extended_signature :=
      extend_predictor_signature pr.extended_signature [("feedback", feedbackField)],
    forward := Forward.wrapped [("feedback", em)] pr.forward }

/-- The cleanup action per saved predictor: revert the signature by the
`feedback` key and reinstall the recorded `forward`. -/
def restorePred (pr : Predictor) (f : Forward) : Predictor :=
  { pr with
    extended_signature := revert_predictor_signature pr.extended_signature ["feedback"],
    forward := f }

/-! ## The Assert class -/

/-- Result of evaluating the predicate `assert_fun(*args, **kwargs)`:
a boolean, or a value of any other type. -/
inductive PredResult : Type where
  | bool : Bool → PredResult
  | nonBool : PredResult
deriving DecidableEq

/-- Outcome of `Assert.__call__`: normal return, `DSPyAssertionError`
(message plus trace snapshot), or the distinct `ValueError` for a
non-boolean predicate result. -/
inductive AssertOutcome : Type where
  | ok : AssertOutcome
  | fail : String → List Nat → AssertOutcome
  | invalid : AssertOutcome
deriving DecidableEq

/-- The body of `Assert.__call__` given the predicate's result, the stored
message and the currently visible trace (`dsp.settings.trace`). -/
def assertRaise (r : PredResult) (msg : String) (trace : List Nat) : AssertOutcome :=
  match r with
  | PredResult.bool true => AssertOutcome.ok
  | PredResult.bool false => AssertOutcome.fail msg trace
  | PredResult.nonBool => AssertOutcome.invalid

/-- The `msg` handling of `Assert.__init__`: extract `kwargs["msg"]`
(defaulting to the empty string) and delete the key before the predicate
is invoked. Returns (stored message, remaining kwargs). -/
def assertFields (kwargs : List (String × String)) : String × List (String × String) :=
  match dictGet "msg" kwargs with
  | some m => (m, dictPop "msg" kwargs)
  | none => ("", kwargs)

/-- Constructing an `Assert`: `__init__` stores args and the stripped
kwargs, then immediately invokes `__call__`, which evaluates the predicate
on them and raises according to its result. -/
def assertNew (f : List String → List (String × String) → PredResult)
    (args : List String) (kwargs : List (String × String)) (trace : List Nat) :
    AssertOutcome :=
  assertRaise (f args (assertFields kwargs).2) (assertFields kwargs).1 trace

/-! ## The retry orchestrator policies

The wrapped function is abstracted as `behavior : Nat → FuncOutcome ρ`:
for each attempt index, it either returns a result, raises
`DSPyAssertionError` (with message and the trace visible in the handler;
trace entries are abbreviated to the stage identity of `trace[-1][0]`,
the only component the code reads), or raises a non-assertion exception. -/

inductive FuncOutcome (ρ : Type) : Type where
  | ok : ρ → FuncOutcome ρ
  | assertFail : String → List Nat → FuncOutcome ρ
  | otherError : FuncOutcome ρ
deriving DecidableEq

/-- How an orchestrated call ends: a normal return (`none` when all
attempts were exhausted), propagation of a non-assertion exception raised
by the wrapped function, or propagation of the `UnboundLocalError` raised
by reading an unassigned `backtrack_to`. -/
inductive RunExit (ρ : Type) : Type where
  | returns : Option ρ → RunExit ρ
  | raisesFunc : RunExit ρ
  | raisesUnbound : RunExit ρ
deriving DecidableEq

/-- `if dsp.settings.trace: backtrack_to = dsp.settings.trace[-1][0]`:
blame the stage of the last trace entry, keeping the previous value when
the trace is empty. -/
def nextBlame (bt : Option Nat) (tr : List Nat) : Option Nat :=
  match tr.getLast? with
  | some p => some p
  | none => bt

/-- The value held by `backtrack_to` when attempt `j` starts, as a function
of the oracle alone: the stage of the last entry of the most recent
non-empty failure trace among attempts `0 .. j-1`, if any. -/
def lastBlame {ρ : Type} (behavior : Nat → FuncOutcome ρ) : Nat → Option Nat
  | 0 => none
  | j + 1 =>
    match behavior j with
    | FuncOutcome.assertFail _ tr => nextBlame (lastBlame behavior j) tr
    | _ => lastBlame behavior j

/-! ### Policy 1: `assert_transform` (blind retry) -/

/-- The loop of `assert_transform`'s `inner`, with `fuel` remaining
iterations starting at attempt `i`.  Returns the exit and the number of
invocations performed. -/
def assert_transform_go {ρ : Type} (behavior : Nat → FuncOutcome ρ) :
    Nat → Nat → RunExit ρ × Nat
  | 0, _ => (RunExit.returns none, 0)
  | fuel + 1, i =>
    match behavior i with
    | FuncOutcome.ok r => (RunExit.returns (some r), 1)
    | FuncOutcome.otherError => (RunExit.raisesFunc, 1)
    | FuncOutcome.assertFail _ _ =>
      let out := assert_transform_go behavior fuel (i + 1)
      (out.1, out.2 + 1)

/-- `assert_transform(max_backtracks)`'s wrapped call. -/
def assert_transform {ρ : Type} (behavior : Nat → FuncOutcome ρ) (maxB : Nat) :
    RunExit ρ × Nat :=
  assert_transform_go behavior (maxB + 1) 0

/-! ### Policy 2: `assert_update_transform` (global perturbation)

`backtrack_to` is never initialised in this function; it is only assigned
inside the exception handler, and only when the trace is non-empty.  We
model it as `Option Nat` where `none` means *unassigned*: reading it while
unassigned (which the guard `i > 0 and backtrack_to is not None` does on
every iteration after the first) raises `UnboundLocalError`. -/

/-- The loop of `assert_update_transform`'s `inner`.  `base` is the ambient
`dsp.settings.lm` temperature, re-read each iteration; the returned list
records the effective temperature of each performed invocation. -/
def assert_update_transform_go {ρ : Type} (behavior : Nat → FuncOutcome ρ)
    (base : Rat) : Nat → Nat → Option Nat → RunExit ρ × List Rat
  | 0, _, _ => (RunExit.returns none, [])
  | fuel + 1, i, bt =>
    if 0 < i then
      match bt with
      | none => (RunExit.raisesUnbound, [])
      | some p =>
        let temp : Rat := 71 / 100 + (2 / 1000) * (i : Rat)
        match behavior i with
        | FuncOutcome.ok r => (RunExit.returns (some r), [temp])
        | FuncOutcome.otherError => (RunExit.raisesFunc, [temp])
        | FuncOutcome.assertFail _ tr =>
          let out := assert_update_transform_go behavior base fuel (i + 1)
            (nextBlame (some p) tr)
          (out.1, temp :: out.2)
    else
      match behavior i with
      | FuncOutcome.ok r => (RunExit.returns (some r), [base])
      | FuncOutcome.otherError => (RunExit.raisesFunc, [base])
      | FuncOutcome.assertFail _ tr =>
        let out := assert_update_transform_go behavior base fuel (i + 1)
          (nextBlame none tr)
        (out.1, base :: out.2)

/-- `assert_update_transform(max_backtracks)`'s wrapped call. -/
def assert_update_transform {ρ : Type} (behavior : Nat → FuncOutcome ρ)
    (base : Rat) (maxB : Nat) : RunExit ρ × List Rat :=
  assert_update_transform_go behavior base (maxB + 1) 0 none

/-! ### Policy 3: `assert_latest_transform` (targeted perturbation) -/

/-- Snapshot taken at each performed attempt of `assert_latest_transform`,
after the mutation step and before the invocation: the current
`backtrack_to` and the stage map. -/
structure LSnap where
  bt : Option Nat
  stages : Stages

/-- Loop state returned by `assert_latest_transform`'s loop. -/
structure LTLoop (ρ : Type) where
  res : Option ρ
  raised : Bool
  log : List LSnap
  stages : Stages

/-- The mutation step before attempt `i`:
`backtrack_to.update_config(temperature=0.7 + 0.001 * i)` when `i > 0` and
a blame target exists.  (The Python float literals are modelled as the
exact rationals 7/10 and 1/1000.) -/
def ltMutate (i : Nat) (bt : Option Nat) (st : Stages) : Stages :=
  match bt with
  | some p =>
    if 0 < i then setStage st p (updateTempPred (st p) (7 / 10 + (1 / 1000) * (i : Rat)))
    else st
  | none => st

/-- The loop of `assert_latest_transform`'s `inner`. -/
def assert_latest_transform_go {ρ : Type} (behavior : Nat → FuncOutcome ρ) :
    Nat → Nat → Option Nat → Stages → LTLoop ρ
  | 0, _, _, st => ⟨none, false, [], st⟩
  | fuel + 1, i, bt, st =>
    let st' := ltMutate i bt st
    match behavior i with
    | FuncOutcome.ok r => ⟨some r, false, [⟨bt, st'⟩], st'⟩
    | FuncOutcome.otherError => ⟨none, true, [⟨bt, st'⟩], st'⟩
    | FuncOutcome.assertFail _ tr =>
      let out := assert_latest_transform_go behavior fuel (i + 1) (nextBlame bt tr) st'
      ⟨out.res, out.raised, ⟨bt, st'⟩ :: out.log, out.stages⟩

/-- Result of an `assert_latest_transform` orchestrated call. -/
structure LTRes (ρ : Type) where
  exit : RunExit ρ
  log : List LSnap
  final : Stages

/-- `assert_latest_transform(max_backtracks)`'s wrapped call. -/
def assert_latest_transform {ρ : Type} (behavior : Nat → FuncOutcome ρ)
    (maxB : Nat) (st0 : Stages) : LTRes ρ :=
  let out := assert_latest_transform_go behavior (maxB + 1) 0 none st0
  ⟨if out.raised then RunExit.raisesFunc else RunExit.returns out.res,
    out.log, out.stages⟩

/-! ### Policy 4: `assert_latest_feedback_transform` (feedback injection) -/

/-- Snapshot taken at each performed attempt of
`assert_latest_feedback_transform`, after the mutation step and before the
invocation: `backtrack_to`, `error_msg` and the stage map. -/
structure FBSnap where
  bt : Option Nat
  em : String
  stages : Stages

/-- Loop state returned by `assert_latest_feedback_transform`'s loop. -/
structure FBLoop (ρ : Type) where
  res : Option ρ
  raised : Bool
  log : List FBSnap
  saved : List (Nat × Forward)
  stages : Stages

/-- The stage-map part of the policy-4 mutation step before attempt `i`. -/
def stMutate (i : Nat) (bt : Option Nat) (em : String) (st : Stages) : Stages :=
  match bt with
  | some p => if 0 < i then setStage st p (mutatePred (st p) em) else st
  | none => st

/-- The bookkeeping part of the policy-4 mutation step:
`extended_predictors_to_original_forward[backtrack_to] = backtrack_to.forward`,
reading the *current* forward of the blamed predictor. -/
def savMutate (i : Nat) (bt : Option Nat) (saved : List (Nat × Forward))
    (st : Stages) : List (Nat × Forward) :=
  match bt with
  | some p => if 0 < i then dictInsert saved p (st p).forward else saved
  | none => saved

/-- The loop of `assert_latest_feedback_transform`'s `inner`.  `error_msg`
starts as Python `None`; it is modelled by the empty string, which is never
read before a failure has assigned it (the mutation step requires
`backtrack_to` to be set, which only an assertion failure does, and every
assertion failure also assigns `error_msg`). -/
def assert_latest_feedback_transform_go {ρ : Type}
    (behavior : Nat → FuncOutcome ρ) :
    Nat → Nat → Option Nat → String → List (Nat × Forward) → Stages → FBLoop ρ
  | 0, _, _, _, saved, st => ⟨none, false, [], saved, st⟩
  | fuel + 1, i, bt, em, saved, st =>
    let saved' := savMutate i bt saved st
    let st' := stMutate i bt em st
    match behavior i with
    | FuncOutcome.ok r => ⟨some r, false, [⟨bt, em, st'⟩], saved', st'⟩
    | FuncOutcome.otherError => ⟨none, true, [⟨bt, em, st'⟩], saved', st'⟩
    | FuncOutcome.assertFail m tr =>
      let out := assert_latest_feedback_transform_go behavior fuel (i + 1)
        (nextBlame bt tr) m saved' st'
      ⟨out.res, out.raised, ⟨bt, em, st'⟩ :: out.log, out.saved, out.stages⟩

/-- The cleanup loop: for every recorded (predictor, original forward)
entry, revert the signature by `"feedback"` and reinstall the forward. -/
def cleanup (saved : List (Nat × Forward)) (st : Stages) : Stages :=
  saved.foldl (fun acc e => setStage acc e.1 (restorePred (acc e.1) e.2)) st

/-- Result of an `assert_latest_feedback_transform` orchestrated call. -/
structure FBRes (ρ : Type) where
  exit : RunExit ρ
  log : List FBSnap
  saved : List (Nat × Forward)
  final : Stages

/-- `assert_latest_feedback_transform(max_backtracks)`'s wrapped call:
run the loop, then — only when control leaves the loop normally (success
or exhaustion; the revert block is not in a `finally`) — run the cleanup
loop and return the result. -/
def assert_latest_feedback_transform {ρ : Type} (behavior : Nat → FuncOutcome ρ)
    (maxB : Nat) (st0 : Stages) : FBRes ρ :=
  let out := assert_latest_feedback_transform_go behavior (maxB + 1) 0 none "" [] st0
  if out.raised then ⟨RunExit.raisesFunc, out.log, out.saved, out.stages⟩
  else ⟨RunExit.returns out.res, out.log, out.saved, cleanup out.saved out.stages⟩

/-! ## Well-formedness of a pre-run signature

The spec partitions a contract into input fields followed by output-role
fields, with distinct names, and the injected name `feedback` not yet
present. -/

def WFsig (t : Template) : Prop :=
  "feedback" ∉ t.kwargs.map Prod.fst ∧
  (t.kwargs.map Prod.fst).Nodup ∧
  t.kwargs = t.kwargs.filter isInputE ++ t.kwargs.filter isOutputE

instance decWFsig (t : Template) : Decidable (WFsig t) := by
  unfold WFsig
  infer_instance

/-- The rollback invariant of a policy-4 run: the recorded map has distinct
keys, records the pre-run forward of every mutated stage, unmutated stages
are untouched, and every mutated stage currently carries the extended
signature and a wrapped forward over its pre-run original. -/
def MutInv (st0 : Stages) (saved : List (Nat × Forward)) (st : Stages) : Prop :=
  (saved.map Prod.fst).Nodup ∧
  (∀ p f, (p, f) ∈ saved → f = (st0 p).forward) ∧
  (∀ q, q ∉ saved.map Prod.fst → st q = st0 q) ∧
  (∀ p, p ∈ saved.map Prod.fst →
    (st p).extended_signature =
      extend_predictor_signature (st0 p).extended_signature
        [("feedback", feedbackField)] ∧
    (∃ e, (st p).forward = Forward.wrapped [("feedback", e)] (st0 p).forward) ∧
    (st p).config = (st0 p).config)

/-! ## Concrete data for counterexamples and witnesses -/

/-- A question input field of the running example stage. -/
def qField : Field := { kind := FieldKind.input, pfx := "Question:", desc := "q" }

/-- An answer output field of the running example stage. -/
def aField : Field := { kind := FieldKind.output, pfx := "Answer:", desc := "a" }

/-- A well-formed pre-run signature. -/
def T0 : Template :=
  { instructions := "answer the question",
    kwargs := [("question", qField), ("answer", aField)] }

/-- A pre-run predictor with original forward `Forward.base 0`. -/
def P0 : Predictor := { extended_signature := T0, forward := Forward.base 0, config := [] }

/-- A stage map where every identity holds the pre-run predictor `P0`. -/
def stConst : Stages := fun _ => P0

/-- C1 run: the same stage 0 is blamed on attempts 0 and 1, attempt 2 succeeds. -/
def behC1 : Nat → FuncOutcome Nat := fun i =>
  match i with
  | 0 => FuncOutcome.assertFail "e0" [0]
  | 1 => FuncOutcome.assertFail "e1" [0]
  | _ => FuncOutcome.ok 7

/-- C2 counterexample run: attempt 0 fails blaming stage 0, attempt 1
raises a non-assertion exception. -/
def behC2 : Nat → FuncOutcome Nat := fun i =>
  match i with
  | 0 => FuncOutcome.assertFail "e0" [0]
  | _ => FuncOutcome.otherError

/-- C2 witness run: attempt 0 fails blaming stage 5, attempt 1 succeeds. -/
def behC2w : Nat → FuncOutcome Nat := fun i =>
  match i with
  | 0 => FuncOutcome.assertFail "w" [5]
  | _ => FuncOutcome.ok 3

/-- C3/C4 failing run: every attempt fails with an empty trace. -/
def behEmptyTrace : Nat → FuncOutcome Nat := fun _ =>
  FuncOutcome.assertFail "x" []

/-- C5 counterexample run: attempt 0 fails blaming stage 0, attempt 1
fails with an empty trace, attempt 2 succeeds. -/
def behC5 : Nat → FuncOutcome Nat := fun i =>
  match i with
  | 0 => FuncOutcome.assertFail "a" [0]
  | 1 => FuncOutcome.assertFail "b" []
  | _ => FuncOutcome.ok 9

/-- C5 witness run: attempt 0 fails blaming stage 4, attempt 1 succeeds. -/
def behC5w : Nat → FuncOutcome Nat := fun i =>
  match i with
  | 0 => FuncOutcome.assertFail "a" [4]
  | _ => FuncOutcome.ok 2

/-- C7 witness run: attempt 0 fails blaming stage 2, attempt 1 raises the
non-assertion error (e.g. the `ValueError` of a non-boolean predicate). -/
def behC7w : Nat → FuncOutcome Nat := fun i =>
  match i with
  | 0 => FuncOutcome.assertFail "f0" [2]
  | _ => FuncOutcome.otherError

/-- C8 witness run: attempt 0 fails blaming stage 0, attempt 1 succeeds. -/
def behC8w : Nat → FuncOutcome Nat := fun i =>
  match i with
  | 0 => FuncOutcome.assertFail "boom" [0]
  | _ => FuncOutcome.ok 1

/-! ## Dictionary lemmas -/

theorem dictGet_isSome_iff_mem {κ β : Type} [DecidableEq κ] (k : κ) (l : List (κ × β)) :
    (dictGet k l).isSome ↔ k ∈ l.map Prod.fst := by
  induction l with
  | nil => simp [dictGet]
  | cons e es ih =>
    by_cases h : e.1 = k
    · simp [dictGet, h]
    · simp [dictGet, h, ih, Ne.symm h]

theorem dictGet_eq_none_of_not_mem {κ β : Type} [DecidableEq κ] {k : κ}
    {l : List (κ × β)} (h : k ∉ l.map Prod.fst) : dictGet k l = none := by
  have h2 := (dictGet_isSome_iff_mem k l).not.mpr h
  cases hh : dictGet k l with
  | none => rfl
  | some v => rw [hh] at h2; simp at h2

theorem dictGet_append {κ β : Type} [DecidableEq κ] (k : κ) (l1 l2 : List (κ × β)) :
    dictGet k (l1 ++ l2) =
      match dictGet k l1 with
      | some v => some v
      | none => dictGet k l2 := by
  induction l1 with
  | nil => simp [dictGet]
  | cons e es ih =>
    by_cases h : e.1 = k <;> simp [dictGet, h, ih]

theorem dictInsert_of_not_mem {κ β : Type} [DecidableEq κ] {k : κ}
    {l : List (κ × β)} (h : k ∉ l.map Prod.fst) (v : β) :
    dictInsert l k v = l ++ [(k, v)] := by
  unfold dictInsert
  rw [dictGet_eq_none_of_not_mem h]
  simp

theorem dictGet_replace_self {κ β : Type} [DecidableEq κ] {k : κ}
    {l : List (κ × β)} (h : (dictGet k l).isSome) (v : β) :
    dictGet k (dictReplace k v l) = some v := by
  induction l with
  | nil => simp [dictGet] at h
  | cons e es ih =>
    by_cases he : e.1 = k
    · simp [dictGet, dictReplace, he]
    · simp [dictGet, dictReplace, he] at h ⊢
      exact ih h

theorem dictGet_insert_self {κ β : Type} [DecidableEq κ] (k : κ)
    (l : List (κ × β)) (v : β) : dictGet k (dictInsert l k v) = some v := by
  unfold dictInsert
  by_cases h : (dictGet k l).isSome
  · simp [h, dictGet_replace_self h]
  · simp [h, dictGet_append]
    cases hh : dictGet k l with
    | none => simp [dictGet]
    | some w => rw [hh] at h; simp at h

theorem dictGet_replace_ne {κ β : Type} [DecidableEq κ] {k k' : κ}
    (h : k' ≠ k) (l : List (κ × β)) (v : β) :
    dictGet k' (dictReplace k v l) = dictGet k' l := by
  induction l with
  | nil => simp [dictReplace]
  | cons e es ih =>
    simp only [dictReplace]
    by_cases he : e.1 = k
    · rw [if_pos he]
      have h1 : ¬ (k = k') := fun hk => h hk.symm
      have h2 : ¬ (e.1 = k') := fun hk => h1 (he ▸ hk)
      simp only [dictGet, if_neg h1, if_neg h2, ih]
    · rw [if_neg he]
      simp only [dictGet, ih]

theorem dictGet_insert_ne {κ β : Type} [DecidableEq κ] {k k' : κ}
    (h : k' ≠ k) (l : List (κ × β)) (v : β) :
    dictGet k' (dictInsert l k v) = dictGet k' l := by
  unfold dictInsert
  by_cases hs : (dictGet k l).isSome
  · simp [hs, dictGet_replace_ne h]
  · simp [hs, dictGet_append]
    cases hh : dictGet k' l with
    | none => simp [dictGet, Ne.symm h]
    | some w => simp

theorem dictUpdate_nil {κ β : Type} [DecidableEq κ] (l : List (κ × β)) :
    dictUpdate l [] = l := rfl

theorem dictUpdate_cons {κ β : Type} [DecidableEq κ] (l : List (κ × β))
    (e : κ × β) (es : List (κ × β)) :
    dictUpdate l (e :: es) = dictUpdate (dictInsert l e.1 e.2) es := rfl

theorem dictUpdate_append_disjoint {κ β : Type} [DecidableEq κ] :
    ∀ (e l : List (κ × β)), (e.map Prod.fst).Nodup →
      (∀ k ∈ e.map Prod.fst, k ∉ l.map Prod.fst) → dictUpdate l e = l ++ e
  | [], l, _, _ => by simp [dictUpdate_nil]
  | kv :: es, l, hnd, hdisj => by
    rw [dictUpdate_cons]
    have h1 : kv.1 ∉ l.map Prod.fst := hdisj kv.1 (by simp)
    rw [dictInsert_of_not_mem h1]
    have hnd' : (es.map Prod.fst).Nodup := by
      simp only [List.map_cons, List.nodup_cons] at hnd
      exact hnd.2
    have hne : kv.1 ∉ es.map Prod.fst := by
      simp only [List.map_cons, List.nodup_cons] at hnd
      exact hnd.1
    have hdisj' : ∀ k ∈ es.map Prod.fst, k ∉ (l ++ [(kv.1, kv.2)]).map Prod.fst := by
      intro k hk
      simp only [List.map_append, List.mem_append]
      rintro (hl | hl)
      · exact hdisj k (by simp [hk]) hl
      · simp at hl
        exact hne (hl ▸ hk)
    rw [dictUpdate_append_disjoint es (l ++ [(kv.1, kv.2)]) hnd' hdisj']
    simp

theorem dictGet_update_not_mem {κ β : Type} [DecidableEq κ] {k : κ} :
    ∀ (e l : List (κ × β)), k ∉ e.map Prod.fst →
      dictGet k (dictUpdate l e) = dictGet k l
  | [], l, _ => rfl
  | kv :: es, l, h => by
    rw [dictUpdate_cons]
    have h1 : k ≠ kv.1 := by
      intro hk
      exact h (by simp [hk])
    have h2 : k ∉ es.map Prod.fst := by
      intro hk
      exact h (by simp [hk])
    rw [dictGet_update_not_mem es _ h2, dictGet_insert_ne h1]

theorem mem_dictPop {κ β : Type} [DecidableEq κ] {k : κ} {e : κ × β} :
    ∀ {l : List (κ × β)}, e ∈ dictPop k l → e ∈ l ∧ e.1 ≠ k := by
  intro l
  induction l with
  | nil => simp [dictPop]
  | cons f fs ih =>
    intro h
    by_cases hf : f.1 = k
    · simp only [dictPop, if_pos hf] at h
      obtain ⟨h1, h2⟩ := ih h
      exact ⟨List.mem_cons_of_mem f h1, h2⟩
    · simp only [dictPop, if_neg hf] at h
      rcases List.mem_cons.mp h with h1 | h1
      · rw [h1]
        exact ⟨List.mem_cons_self f fs, hf⟩
      · obtain ⟨h2, h3⟩ := ih h1
        exact ⟨List.mem_cons_of_mem f h2, h3⟩

theorem dictPop_of_forall_ne {κ β : Type} [DecidableEq κ] {k : κ} :
    ∀ {l : List (κ × β)}, (∀ e ∈ l, e.1 ≠ k) → dictPop k l = l := by
  intro l
  induction l with
  | nil => simp [dictPop]
  | cons f fs ih =>
    intro h
    have hf : f.1 ≠ k := h f (List.mem_cons_self f fs)
    simp only [dictPop, if_neg hf]
    rw [ih (fun e he => h e (List.mem_cons_of_mem f he))]

theorem dictPop_idem {κ β : Type} [DecidableEq κ] (k : κ) (l : List (κ × β)) :
    dictPop k (dictPop k l) = dictPop k l :=
  dictPop_of_forall_ne (fun _ he => (mem_dictPop he).2)

theorem dictPop_of_not_mem {κ β : Type} [DecidableEq κ] {k : κ}
    {l : List (κ × β)} (h : k ∉ l.map Prod.fst) : dictPop k l = l :=
  dictPop_of_forall_ne (fun _e he hk => h (hk ▸ List.mem_map_of_mem Prod.fst he))

theorem dictGet_pop_self {κ β : Type} [DecidableEq κ] (k : κ) (l : List (κ × β)) :
    dictGet k (dictPop k l) = none := by
  induction l with
  | nil => simp [dictPop, dictGet]
  | cons f fs ih =>
    by_cases hf : f.1 = k <;> simp [dictPop, dictGet, hf, ih]

theorem dictGet_pop_ne {κ β : Type} [DecidableEq κ] {k k' : κ} (h : k' ≠ k)
    (l : List (κ × β)) : dictGet k' (dictPop k l) = dictGet k' l := by
  induction l with
  | nil => simp [dictPop]
  | cons f fs ih =>
    simp only [dictPop]
    by_cases hf : f.1 = k
    · rw [if_pos hf, ih]
      have h2 : ¬ (f.1 = k') := fun hk => h ((hf ▸ hk).symm)
      simp only [dictGet, if_neg h2]
    · rw [if_neg hf]
      simp only [dictGet, ih]

theorem dictPop_append {κ β : Type} [DecidableEq κ] (k : κ) (l1 l2 : List (κ × β)) :
    dictPop k (l1 ++ l2) = dictPop k l1 ++ dictPop k l2 := by
  induction l1 with
  | nil => simp [dictPop]
  | cons f fs ih =>
    by_cases hf : f.1 = k <;> simp [dictPop, hf, ih]

theorem all_dictInsert {κ β : Type} [DecidableEq κ] {Q : κ × β → Prop} {k : κ} {v : β} :
    ∀ {l : List (κ × β)}, (∀ e ∈ l, Q e) → Q (k, v) →
      ∀ e ∈ dictInsert l k v, Q e := by
  intro l hl hkv e he
  unfold dictInsert at he
  by_cases hs : (dictGet k l).isSome
  · rw [if_pos hs] at he
    clear hs
    induction l with
    | nil => simp [dictReplace] at he
    | cons f fs ih =>
      have hf : Q f := hl f (List.mem_cons_self f fs)
      have hfs : ∀ e ∈ fs, Q e := fun e he => hl e (List.mem_cons_of_mem f he)
      by_cases hfk : f.1 = k
      · simp only [dictReplace, if_pos hfk, List.mem_cons] at he
        rcases he with rfl | he
        · exact hkv
        · exact ih hfs he
      · simp only [dictReplace, if_neg hfk, List.mem_cons] at he
        rcases he with rfl | he
        · exact hf
        · exact ih hfs he
  · rw [if_neg hs] at he
    rcases List.mem_append.mp he with h | h
    · exact hl e h
    · simp at h
      exact h ▸ hkv

/-! ## setdefault and baseArgs lemmas -/

theorem setdefaults_cons {κ β : Type} [DecidableEq κ] (kw : List (κ × β))
    (d : κ × β) (ds : List (κ × β)) :
    setdefaults kw (d :: ds) =
      setdefaults (if (dictGet d.1 kw).isSome then kw else kw ++ [d]) ds := by
  unfold setdefaults
  simp only [List.foldl_cons]

theorem dictGet_setdefaults_isSome {κ β : Type} [DecidableEq κ] {k : κ} :
    ∀ (ds kw : List (κ × β)), (dictGet k kw).isSome →
      dictGet k (setdefaults kw ds) = dictGet k kw
  | [], kw, _ => rfl
  | d :: ds, kw, h => by
    rw [setdefaults_cons]
    by_cases hd : (dictGet d.1 kw).isSome
    · rw [if_pos hd]
      exact dictGet_setdefaults_isSome ds kw h
    · rw [if_neg hd]
      have hget : dictGet k (kw ++ [d]) = dictGet k kw := by
        rw [dictGet_append]
        cases hh : dictGet k kw with
        | none => rw [hh] at h; simp at h
        | some v => simp
      rw [dictGet_setdefaults_isSome ds (kw ++ [d]) (by rw [hget]; exact h), hget]

theorem baseArgs_get_isSome :
    ∀ (F : Forward) (kw : List (String × String)) (k : String),
      (dictGet k kw).isSome → dictGet k (baseArgs F kw) = dictGet k kw
  | Forward.base _, _, _, _ => rfl
  | Forward.wrapped ds f, kw, k, h => by
    unfold baseArgs
    rw [baseArgs_get_isSome f _ k (by rw [dictGet_setdefaults_isSome ds kw h]; exact h),
      dictGet_setdefaults_isSome ds kw h]

theorem feedback_default (F : Forward) (m : String) (kw : List (String × String)) :
    dictGet "feedback" (baseArgs (Forward.wrapped [("feedback", m)] F) kw) =
      some ((dictGet "feedback" kw).getD m) := by
  unfold baseArgs
  cases hh : dictGet "feedback" kw with
  | some v =>
    have h1 : setdefaults kw [("feedback", m)] = kw := by
      rw [setdefaults_cons]
      simp [hh, setdefaults]
    rw [h1, baseArgs_get_isSome F kw "feedback" (by rw [hh]; rfl), hh]
    rfl
  | none =>
    have h1 : setdefaults kw [("feedback", m)] = kw ++ [("feedback", m)] := by
      rw [setdefaults_cons]
      simp [hh, setdefaults]
    have h2 : dictGet "feedback" (kw ++ [("feedback", m)]) = some m := by
      rw [dictGet_append, hh]
      simp [dictGet]
    rw [h1, baseArgs_get_isSome F _ "feedback" (by rw [h2]; rfl), h2]
    rfl

/-! ## Signature extension and reversion lemmas -/

theorem isOutputE_eq_not_isInputE (e : String × Field) :
    isOutputE e = !isInputE e := by
  cases h : e.2.kind <;> simp [isInputE, isOutputE, h]

theorem isInputE_not_isOutputE {e : String × Field} (h : isInputE e = true) :
    ¬ (isOutputE e = true) := by
  rw [isOutputE_eq_not_isInputE, h]
  simp

theorem keys_filter_disjoint (kw : List (String × Field))
    (hnd : (kw.map Prod.fst).Nodup) :
    ∀ k ∈ (kw.filter isOutputE).map Prod.fst,
      k ∉ (kw.filter isInputE).map Prod.fst := by
  have hperm : List.Perm (kw.filter isInputE ++ kw.filter isOutputE) kw := by
    have h1 := List.filter_append_perm isInputE kw
    have h2 : kw.filter (fun a => !isInputE a) = kw.filter isOutputE :=
      List.filter_congr (fun e _ => (isOutputE_eq_not_isInputE e).symm)
    rw [h2] at h1
    exact h1
  have hnd2 : ((kw.filter isInputE).map Prod.fst ++
      (kw.filter isOutputE).map Prod.fst).Nodup := by
    have h3 := (hperm.map Prod.fst).nodup_iff.mpr hnd
    rw [List.map_append] at h3
    exact h3
  rw [List.nodup_append] at hnd2
  intro k hkO hkI
  exact hnd2.2.2 hkI hkO

theorem map_fst_replace {κ β : Type} [DecidableEq κ] (k : κ) (v : β) :
    ∀ l : List (κ × β), (dictReplace k v l).map Prod.fst = l.map Prod.fst := by
  intro l
  induction l with
  | nil => rfl
  | cons e es ih =>
    simp only [dictReplace]
    by_cases he : e.1 = k
    · rw [if_pos he, List.map_cons, List.map_cons, ih, he]
    · rw [if_neg he, List.map_cons, List.map_cons, ih]

theorem keys_dictInsert_subset {κ β : Type} [DecidableEq κ] (l : List (κ × β))
    (k : κ) (v : β) :
    ∀ k' ∈ (dictInsert l k v).map Prod.fst, k' ∈ l.map Prod.fst ∨ k' = k := by
  intro k' hk'
  unfold dictInsert at hk'
  by_cases hs : (dictGet k l).isSome
  · rw [if_pos hs, map_fst_replace] at hk'
    exact Or.inl hk'
  · rw [if_neg hs, List.map_append] at hk'
    rcases List.mem_append.mp hk' with h | h
    · exact Or.inl h
    · simp at h
      exact Or.inr h

/-- The kwargs of the extended signature of a well-formed template:
existing input fields, then the feedback field, then the output fields. -/
theorem extend_kwargs_eq (t : Template) (h : WFsig t) :
    (extend_predictor_signature t [("feedback", feedbackField)]).kwargs =
      t.kwargs.filter isInputE ++ [("feedback", feedbackField)] ++
        t.kwargs.filter isOutputE := by
  obtain ⟨hfb, hnd, hpart⟩ := h
  have hIsub : List.Sublist ((t.kwargs.filter isInputE).map Prod.fst)
      (t.kwargs.map Prod.fst) := (List.filter_sublist _).map _
  have hOsub : List.Sublist ((t.kwargs.filter isOutputE).map Prod.fst)
      (t.kwargs.map Prod.fst) := (List.filter_sublist _).map _
  have hfbI : "feedback" ∉ (t.kwargs.filter isInputE).map Prod.fst :=
    fun hm => hfb (hIsub.subset hm)
  have h1 : dictUpdate (t.kwargs.filter isInputE) [("feedback", feedbackField)] =
      t.kwargs.filter isInputE ++ [("feedback", feedbackField)] := by
    rw [dictUpdate_cons, dictUpdate_nil, dictInsert_of_not_mem hfbI]
  have hOnodup : ((t.kwargs.filter isOutputE).map Prod.fst).Nodup :=
    hnd.sublist hOsub
  have hdisj : ∀ k ∈ (t.kwargs.filter isOutputE).map Prod.fst,
      k ∉ (t.kwargs.filter isInputE ++ [("feedback", feedbackField)]).map Prod.fst := by
    intro k hk
    rw [List.map_append, List.mem_append]
    rintro (hmem | hmem)
    · exact keys_filter_disjoint t.kwargs hnd k hk hmem
    · simp at hmem
      exact hfb (hmem ▸ hOsub.subset hk)
  unfold extend_predictor_signature
  rw [h1, dictUpdate_append_disjoint _ _ hOnodup hdisj]

/-- Reverting the `feedback` field of an extended well-formed signature
restores the original template exactly. -/
theorem revert_extend (t : Template) (h : WFsig t) :
    revert_predictor_signature
      (extend_predictor_signature t [("feedback", feedbackField)]) ["feedback"] = t := by
  have hkw := extend_kwargs_eq t h
  obtain ⟨hfb, hnd, hpart⟩ := h
  unfold revert_predictor_signature
  have hins : (extend_predictor_signature t [("feedback", feedbackField)]).instructions =
      t.instructions := rfl
  have hIsub : List.Sublist ((t.kwargs.filter isInputE).map Prod.fst)
      (t.kwargs.map Prod.fst) := (List.filter_sublist _).map _
  have hOsub : List.Sublist ((t.kwargs.filter isOutputE).map Prod.fst)
      (t.kwargs.map Prod.fst) := (List.filter_sublist _).map _
  have hpop : dictPop "feedback"
      (extend_predictor_signature t [("feedback", feedbackField)]).kwargs = t.kwargs := by
    rw [hkw, dictPop_append, dictPop_append]
    have hI : dictPop "feedback" (t.kwargs.filter isInputE) = t.kwargs.filter isInputE :=
      dictPop_of_not_mem (fun hm => hfb (hIsub.subset hm))
    have hO : dictPop "feedback" (t.kwargs.filter isOutputE) = t.kwargs.filter isOutputE :=
      dictPop_of_not_mem (fun hm => hfb (hOsub.subset hm))
    have hM : dictPop "feedback" [("feedback", feedbackField)] = [] := by
      simp [dictPop]
    rw [hI, hO, hM, List.append_nil]
    exact hpart.symm
  simp only [List.foldl_cons, List.foldl_nil]
  rw [hins, hpop]

/-! ## Preservation lemmas for the general (possibly re-blamed) extension,
assuming only distinct field names and no output field named `feedback`. -/

theorem all_input_insert_feedback (l : List (String × Field))
    (hl : ∀ e ∈ l, isInputE e = true) :
    ∀ e ∈ dictInsert l "feedback" feedbackField, isInputE e = true :=
  all_dictInsert hl (by rfl)

theorem filter_out_extend (t : Template)
    (hnd : (t.kwargs.map Prod.fst).Nodup)
    (hfbO : "feedback" ∉ (t.kwargs.filter isOutputE).map Prod.fst) :
    (extend_predictor_signature t [("feedback", feedbackField)]).kwargs =
      dictInsert (t.kwargs.filter isInputE) "feedback" feedbackField ++
        t.kwargs.filter isOutputE := by
  unfold extend_predictor_signature
  rw [dictUpdate_cons, dictUpdate_nil]
  have hOnodup : ((t.kwargs.filter isOutputE).map Prod.fst).Nodup :=
    hnd.sublist ((List.filter_sublist _).map _)
  have hdisj : ∀ k ∈ (t.kwargs.filter isOutputE).map Prod.fst,
      k ∉ (dictInsert (t.kwargs.filter isInputE) "feedback" feedbackField).map Prod.fst := by
    intro k hk hmem
    rcases keys_dictInsert_subset _ _ _ k hmem with hI | hfbk
    · exact keys_filter_disjoint t.kwargs hnd k hk hI
    · exact hfbO (hfbk ▸ hk)
  exact dictUpdate_append_disjoint _ _ hOnodup hdisj

/-- The extension places `feedbackField` at the key `feedback`. -/
theorem extend_get_feedback (t : Template)
    (hnd : (t.kwargs.map Prod.fst).Nodup)
    (hfbO : "feedback" ∉ (t.kwargs.filter isOutputE).map Prod.fst) :
    dictGet "feedback"
      (extend_predictor_signature t [("feedback", feedbackField)]).kwargs =
      some feedbackField := by
  rw [filter_out_extend t hnd hfbO, dictGet_append, dictGet_insert_self]

/-- The extension preserves the output fields. -/
theorem extend_preserves_outputs (t : Template)
    (hnd : (t.kwargs.map Prod.fst).Nodup)
    (hfbO : "feedback" ∉ (t.kwargs.filter isOutputE).map Prod.fst) :
    (extend_predictor_signature t [("feedback", feedbackField)]).kwargs.filter isOutputE =
      t.kwargs.filter isOutputE := by
  rw [filter_out_extend t hnd hfbO, List.filter_append]
  have h1 : (dictInsert (t.kwargs.filter isInputE) "feedback" feedbackField).filter
      isOutputE = [] := by
    rw [List.filter_eq_nil_iff]
    intro e he
    exact isInputE_not_isOutputE
      (all_input_insert_feedback _ (fun e' he' => List.of_mem_filter he') e he)
  have h2 : (t.kwargs.filter isOutputE).filter isOutputE = t.kwargs.filter isOutputE := by
    rw [List.filter_eq_self]
    intro e he
    exact List.of_mem_filter he
  rw [h1, h2, List.nil_append]

theorem filter_kept_replace (v : Field) :
    ∀ l : List (String × Field),
      (dictReplace "feedback" v l).filter isKeptInputE = l.filter isKeptInputE := by
  intro l
  induction l with
  | nil => rfl
  | cons e es ih =>
    by_cases he : e.1 = "feedback"
    · have hkept : isKeptInputE ("feedback", v) = false := by
        simp [isKeptInputE]
      have hkepte : isKeptInputE e = false := by
        unfold isKeptInputE
        rw [he]
        simp
      simp only [dictReplace, if_pos he, List.filter_cons, hkept, hkepte, ih]
      simp
    · simp only [dictReplace, if_neg he, List.filter_cons, ih]

theorem filter_kept_insert (v : Field) (l : List (String × Field)) :
    (dictInsert l "feedback" v).filter isKeptInputE = l.filter isKeptInputE := by
  unfold dictInsert
  by_cases hs : (dictGet "feedback" l).isSome
  · rw [if_pos hs, filter_kept_replace]
  · rw [if_neg hs, List.filter_append]
    have h1 : [("feedback", v)].filter isKeptInputE = [] := by
      simp [isKeptInputE]
    rw [h1, List.append_nil]

/-- The extension preserves the non-`feedback` input fields. -/
theorem extend_preserves_inputs (t : Template)
    (hnd : (t.kwargs.map Prod.fst).Nodup)
    (hfbO : "feedback" ∉ (t.kwargs.filter isOutputE).map Prod.fst) :
    (extend_predictor_signature t [("feedback", feedbackField)]).kwargs.filter
        isKeptInputE = t.kwargs.filter isKeptInputE := by
  rw [filter_out_extend t hnd hfbO, List.filter_append, filter_kept_insert]
  have h1 : (t.kwargs.filter isOutputE).filter isKeptInputE = [] := by
    rw [List.filter_eq_nil_iff]
    intro e he
    have hout := List.of_mem_filter he
    intro hk
    unfold isKeptInputE at hk
    rw [Bool.and_eq_true] at hk
    exact isInputE_not_isOutputE hk.1 hout
  have h2 : (t.kwargs.filter isInputE).filter isKeptInputE =
      t.kwargs.filter isKeptInputE := by
    rw [List.filter_filter]
    apply List.filter_congr
    intro e _
    unfold isKeptInputE
    cases h : isInputE e <;> simp [h]
  rw [h1, h2, List.append_nil]

/-! ## Log structure of the policy-3 loop -/

theorem lt_head {ρ : Type} (behavior : Nat → FuncOutcome ρ) (fuel i : Nat)
    (bt : Option Nat) (st : Stages) (h : 0 < fuel) :
    (assert_latest_transform_go behavior fuel i bt st).log.get? 0 =
      some ⟨bt, ltMutate i bt st⟩ := by
  match fuel with
  | f + 1 =>
    cases hb : behavior i <;>
      simp [assert_latest_transform_go, hb]

theorem lt_log_eq {ρ : Type} (behavior : Nat → FuncOutcome ρ) (maxB : Nat)
    (st0 : Stages) :
    (assert_latest_transform behavior maxB st0).log =
      (assert_latest_transform_go behavior (maxB + 1) 0 none st0).log := rfl

theorem lt_step {ρ : Type} (behavior : Nat → FuncOutcome ρ) :
    ∀ (fuel i : Nat) (bt : Option Nat) (st : Stages) (j : Nat) (s s1 : LSnap),
      (assert_latest_transform_go behavior fuel i bt st).log.get? j = some s →
      (assert_latest_transform_go behavior fuel i bt st).log.get? (j + 1) = some s1 →
      ∃ m tr, behavior (i + j) = FuncOutcome.assertFail m tr ∧
        s1.bt = nextBlame s.bt tr ∧
        s1.stages = ltMutate (i + j + 1) s1.bt s.stages := by
  intro fuel
  induction fuel with
  | zero =>
    intro i bt st j s s1 h h1
    simp [assert_latest_transform_go] at h
  | succ f ih =>
    intro i bt st j s s1 h h1
    cases hb : behavior i with
    | ok r =>
      simp only [assert_latest_transform_go, hb] at h1
      simp at h1
    | otherError =>
      simp only [assert_latest_transform_go, hb] at h1
      simp at h1
    | assertFail m tr =>
      simp only [assert_latest_transform_go, hb] at h h1
      cases j with
      | zero =>
        simp only [List.get?_cons_zero, Option.some_inj] at h
        simp only [List.get?_cons_succ] at h1
        cases f with
        | zero => simp [assert_latest_transform_go] at h1
        | succ f' =>
          rw [lt_head behavior (f' + 1) (i + 1) (nextBlame bt tr)
            (ltMutate i bt st) (Nat.succ_pos f')] at h1
          cases h
          cases Option.some_inj.mp h1
          exact ⟨m, tr, by rw [Nat.add_zero]; exact hb, rfl, rfl⟩
      | succ j' =>
        simp only [List.get?_cons_succ] at h h1
        obtain ⟨m', tr', hb', hbt', hst'⟩ := ih (i + 1) (nextBlame bt tr)
          (ltMutate i bt st) j' s s1 h h1
        refine ⟨m', tr', ?_, hbt', ?_⟩
        · rw [show i + (j' + 1) = i + 1 + j' by omega]
          exact hb'
        · rw [show i + (j' + 1) + 1 = i + 1 + j' + 1 by omega]
          exact hst'

theorem lt_blame {ρ : Type} (behavior : Nat → FuncOutcome ρ) :
    ∀ (fuel i : Nat) (bt : Option Nat) (st : Stages) (j : Nat) (s : LSnap),
      bt = lastBlame behavior i →
      (assert_latest_transform_go behavior fuel i bt st).log.get? j = some s →
      s.bt = lastBlame behavior (i + j) := by
  intro fuel
  induction fuel with
  | zero =>
    intro i bt st j s hbt h
    simp [assert_latest_transform_go] at h
  | succ f ih =>
    intro i bt st j s hbt h
    cases hb : behavior i with
    | ok r =>
      simp only [assert_latest_transform_go, hb] at h
      cases j with
      | zero =>
        simp only [List.get?_cons_zero, Option.some_inj] at h
        rw [← h, Nat.add_zero]
        exact hbt
      | succ j' => simp at h
    | otherError =>
      simp only [assert_latest_transform_go, hb] at h
      cases j with
      | zero =>
        simp only [List.get?_cons_zero, Option.some_inj] at h
        rw [← h, Nat.add_zero]
        exact hbt
      | succ j' => simp at h
    | assertFail m tr =>
      simp only [assert_latest_transform_go, hb] at h
      cases j with
      | zero =>
        simp only [List.get?_cons_zero, Option.some_inj] at h
        rw [← h, Nat.add_zero]
        exact hbt
      | succ j' =>
        simp only [List.get?_cons_succ] at h
        have hlb : lastBlame behavior (i + 1) = nextBlame (lastBlame behavior i) tr := by
          simp [lastBlame, hb]
        have hbt' : nextBlame bt tr = lastBlame behavior (i + 1) := by
          rw [hlb, hbt]
        have := ih (i + 1) (nextBlame bt tr) (ltMutate i bt st) j' s hbt' h
        rw [show i + (j' + 1) = i + 1 + j' by omega]
        exact this

theorem lt_none {ρ : Type} (behavior : Nat → FuncOutcome ρ) :
    ∀ (fuel i : Nat) (bt : Option Nat) (st : Stages) (j : Nat) (s : LSnap),
      (assert_latest_transform_go behavior fuel i bt st).log.get? j = some s →
      s.bt = none → bt = none ∧ ∀ q, s.stages q = st q := by
  intro fuel
  induction fuel with
  | zero =>
    intro i bt st j s h hnone
    simp [assert_latest_transform_go] at h
  | succ f ih =>
    intro i bt st j s h hnone
    cases hb : behavior i with
    | ok r =>
      simp only [assert_latest_transform_go, hb] at h
      cases j with
      | zero =>
        simp only [List.get?_cons_zero, Option.some_inj] at h
        cases h
        dsimp only at hnone ⊢
        subst hnone
        exact ⟨rfl, fun q => rfl⟩
      | succ j' => simp at h
    | otherError =>
      simp only [assert_latest_transform_go, hb] at h
      cases j with
      | zero =>
        simp only [List.get?_cons_zero, Option.some_inj] at h
        cases h
        dsimp only at hnone ⊢
        subst hnone
        exact ⟨rfl, fun q => rfl⟩
      | succ j' => simp at h
    | assertFail m tr =>
      simp only [assert_latest_transform_go, hb] at h
      cases j with
      | zero =>
        simp only [List.get?_cons_zero, Option.some_inj] at h
        cases h
        dsimp only at hnone ⊢
        subst hnone
        exact ⟨rfl, fun q => rfl⟩
      | succ j' =>
        simp only [List.get?_cons_succ] at h
        obtain ⟨hbt', hst'⟩ := ih (i + 1) (nextBlame bt tr) (ltMutate i bt st) j' s h hnone
        have hbtnone : bt = none := by
          unfold nextBlame at hbt'
          cases hgl : tr.getLast? with
          | some p => rw [hgl] at hbt'; simp at hbt'
          | none => rw [hgl] at hbt'; exact hbt'
        refine ⟨hbtnone, ?_⟩
        intro q
        rw [hst' q, hbtnone]
        rfl

/-! ## Log structure of the policy-4 loop -/

theorem fb_head {ρ : Type} (behavior : Nat → FuncOutcome ρ) (fuel i : Nat)
    (bt : Option Nat) (em : String) (saved : List (Nat × Forward)) (st : Stages)
    (h : 0 < fuel) :
    (assert_latest_feedback_transform_go behavior fuel i bt em saved st).log.get? 0 =
      some ⟨bt, em, stMutate i bt em st⟩ := by
  match fuel with
  | f + 1 =>
    cases hb : behavior i <;>
      simp [assert_latest_feedback_transform_go, hb]

theorem fb_log_eq {ρ : Type} (behavior : Nat → FuncOutcome ρ) (maxB : Nat)
    (st0 : Stages) :
    (assert_latest_feedback_transform behavior maxB st0).log =
      (assert_latest_feedback_transform_go behavior (maxB + 1) 0 none "" [] st0).log := by
  unfold assert_latest_feedback_transform
  dsimp only
  split <;> rfl

theorem fb_step {ρ : Type} (behavior : Nat → FuncOutcome ρ) :
    ∀ (fuel i : Nat) (bt : Option Nat) (em : String)
      (saved : List (Nat × Forward)) (st : Stages) (j : Nat) (s s1 : FBSnap),
      (assert_latest_feedback_transform_go behavior fuel i bt em saved st).log.get? j =
        some s →
      (assert_latest_feedback_transform_go behavior fuel i bt em saved st).log.get?
        (j + 1) = some s1 →
      ∃ m tr, behavior (i + j) = FuncOutcome.assertFail m tr ∧
        s1.bt = nextBlame s.bt tr ∧ s1.em = m ∧
        s1.stages = stMutate (i + j + 1) s1.bt m s.stages := by
  intro fuel
  induction fuel with
  | zero =>
    intro i bt em saved st j s s1 h h1
    simp [assert_latest_feedback_transform_go] at h
  | succ f ih =>
    intro i bt em saved st j s s1 h h1
    cases hb : behavior i with
    | ok r =>
      simp only [assert_latest_feedback_transform_go, hb] at h1
      simp at h1
    | otherError =>
      simp only [assert_latest_feedback_transform_go, hb] at h1
      simp at h1
    | assertFail m tr =>
      simp only [assert_latest_feedback_transform_go, hb] at h h1
      cases j with
      | zero =>
        simp only [List.get?_cons_zero, Option.some_inj] at h
        simp only [List.get?_cons_succ] at h1
        cases f with
        | zero => simp [assert_latest_feedback_transform_go] at h1
        | succ f' =>
          rw [fb_head behavior (f' + 1) (i + 1) (nextBlame bt tr) m
            (savMutate i bt saved st) (stMutate i bt em st) (Nat.succ_pos f')] at h1
          cases h
          cases Option.some_inj.mp h1
          exact ⟨m, tr, by rw [Nat.add_zero]; exact hb, rfl, rfl, rfl⟩
      | succ j' =>
        simp only [List.get?_cons_succ] at h h1
        obtain ⟨m', tr', hb', hbt', hem', hst'⟩ := ih (i + 1) (nextBlame bt tr) m
          (savMutate i bt saved st) (stMutate i bt em st) j' s s1 h h1
        refine ⟨m', tr', ?_, hbt', hem', ?_⟩
        · rw [show i + (j' + 1) = i + 1 + j' by omega]
          exact hb'
        · rw [show i + (j' + 1) + 1 = i + 1 + j' + 1 by omega]
          exact hst'

/-! ## Propagation of non-assertion errors through each policy loop -/

theorem nextBlame_ne_none {bt : Option Nat} {tr : List Nat} (h : tr ≠ []) :
    nextBlame bt tr ≠ none := by
  unfold nextBlame
  cases hgl : tr.getLast? with
  | some p => simp
  | none =>
    have h2 := List.getLast?_isSome.mpr h
    rw [hgl] at h2
    simp at h2

theorem at_err {ρ : Type} (behavior : Nat → FuncOutcome ρ) :
    ∀ (k fuel i : Nat),
      (∀ j, j < k → ∃ m tr, behavior (i + j) = FuncOutcome.assertFail m tr) →
      behavior (i + k) = FuncOutcome.otherError → k < fuel →
      assert_transform_go behavior fuel i = (RunExit.raisesFunc, k + 1) := by
  intro k
  induction k with
  | zero =>
    intro fuel i hf hk hlt
    match fuel, hlt with
    | f + 1, _ =>
      rw [Nat.add_zero] at hk
      simp [assert_transform_go, hk]
  | succ k' ih =>
    intro fuel i hf hk hlt
    match fuel, hlt with
    | f + 1, hlt =>
      obtain ⟨m, tr, hm⟩ := hf 0 (Nat.succ_pos k')
      rw [Nat.add_zero] at hm
      have h1 := ih f (i + 1)
        (fun j hj => by
          have h2 := hf (j + 1) (by omega)
          rw [show i + (j + 1) = i + 1 + j by omega] at h2
          exact h2)
        (by rw [show i + 1 + k' = i + (k' + 1) by omega]; exact hk)
        (by omega)
      simp [assert_transform_go, hm, h1]

theorem ut_err {ρ : Type} (behavior : Nat → FuncOutcome ρ) (base : Rat) :
    ∀ (k fuel i : Nat) (bt : Option Nat),
      (∀ j, j < k → ∃ m tr, behavior (i + j) = FuncOutcome.assertFail m tr ∧ tr ≠ []) →
      behavior (i + k) = FuncOutcome.otherError → k < fuel → (0 < i → bt ≠ none) →
      (assert_update_transform_go behavior base fuel i bt).1 = RunExit.raisesFunc ∧
      (assert_update_transform_go behavior base fuel i bt).2.length = k + 1 := by
  intro k
  induction k with
  | zero =>
    intro fuel i bt hf hk hlt hbt
    match fuel, hlt with
    | f + 1, _ =>
      rw [Nat.add_zero] at hk
      by_cases hi : 0 < i
      · cases bt with
        | none => exact absurd rfl (hbt hi)
        | some p => constructor <;> simp [assert_update_transform_go, hi, hk]
      · constructor <;> simp [assert_update_transform_go, hi, hk]
  | succ k' ih =>
    intro fuel i bt hf hk hlt hbt
    match fuel, hlt with
    | f + 1, hlt =>
      obtain ⟨m, tr, hm, htr⟩ := hf 0 (Nat.succ_pos k')
      rw [Nat.add_zero] at hm
      have hrec : ∀ bt', (0 < i + 1 → bt' ≠ none) →
          (assert_update_transform_go behavior base f (i + 1) bt').1 =
            RunExit.raisesFunc ∧
          (assert_update_transform_go behavior base f (i + 1) bt').2.length = k' + 1 := by
        intro bt' hbt'
        exact ih f (i + 1) bt'
          (fun j hj => by
            have h2 := hf (j + 1) (by omega)
            rw [show i + (j + 1) = i + 1 + j by omega] at h2
            exact h2)
          (by rw [show i + 1 + k' = i + (k' + 1) by omega]; exact hk)
          (by omega) hbt'
      by_cases hi : 0 < i
      · cases bt with
        | none => exact absurd rfl (hbt hi)
        | some p =>
          have h1 := hrec (nextBlame (some p) tr) (fun _ => nextBlame_ne_none htr)
          constructor <;> simp [assert_update_transform_go, hi, hm, h1.1, h1.2]
      · have h1 := hrec (nextBlame none tr) (fun _ => nextBlame_ne_none htr)
        constructor <;> simp [assert_update_transform_go, hi, hm, h1.1, h1.2]

theorem lt_err {ρ : Type} (behavior : Nat → FuncOutcome ρ) :
    ∀ (k fuel i : Nat) (bt : Option Nat) (st : Stages),
      (∀ j, j < k → ∃ m tr, behavior (i + j) = FuncOutcome.assertFail m tr) →
      behavior (i + k) = FuncOutcome.otherError → k < fuel →
      (assert_latest_transform_go behavior fuel i bt st).raised = true ∧
      (assert_latest_transform_go behavior fuel i bt st).log.length = k + 1 := by
  intro k
  induction k with
  | zero =>
    intro fuel i bt st hf hk hlt
    match fuel, hlt with
    | f + 1, _ =>
      rw [Nat.add_zero] at hk
      constructor <;> simp [assert_latest_transform_go, hk]
  | succ k' ih =>
    intro fuel i bt st hf hk hlt
    match fuel, hlt with
    | f + 1, hlt =>
      obtain ⟨m, tr, hm⟩ := hf 0 (Nat.succ_pos k')
      rw [Nat.add_zero] at hm
      have h1 := ih f (i + 1) (nextBlame bt tr) (ltMutate i bt st)
        (fun j hj => by
          have h2 := hf (j + 1) (by omega)
          rw [show i + (j + 1) = i + 1 + j by omega] at h2
          exact h2)
        (by rw [show i + 1 + k' = i + (k' + 1) by omega]; exact hk)
        (by omega)
      constructor <;> simp [assert_latest_transform_go, hm, h1.1, h1.2]

theorem fb_err {ρ : Type} (behavior : Nat → FuncOutcome ρ) :
    ∀ (k fuel i : Nat) (bt : Option Nat) (em : String)
      (saved : List (Nat × Forward)) (st : Stages),
      (∀ j, j < k → ∃ m tr, behavior (i + j) = FuncOutcome.assertFail m tr) →
      behavior (i + k) = FuncOutcome.otherError → k < fuel →
      (assert_latest_feedback_transform_go behavior fuel i bt em saved st).raised = true ∧
      (assert_latest_feedback_transform_go behavior fuel i bt em saved st).log.length =
        k + 1 := by
  intro k
  induction k with
  | zero =>
    intro fuel i bt em saved st hf hk hlt
    match fuel, hlt with
    | f + 1, _ =>
      rw [Nat.add_zero] at hk
      constructor <;> simp [assert_latest_feedback_transform_go, hk]
  | succ k' ih =>
    intro fuel i bt em saved st hf hk hlt
    match fuel, hlt with
    | f + 1, hlt =>
      obtain ⟨m, tr, hm⟩ := hf 0 (Nat.succ_pos k')
      rw [Nat.add_zero] at hm
      have h1 := ih f (i + 1) (nextBlame bt tr) m (savMutate i bt saved st)
        (stMutate i bt em st)
        (fun j hj => by
          have h2 := hf (j + 1) (by omega)
          rw [show i + (j + 1) = i + 1 + j by omega] at h2
          exact h2)
        (by rw [show i + 1 + k' = i + (k' + 1) by omega]; exact hk)
        (by omega)
      constructor <;> simp [assert_latest_feedback_transform_go, hm, h1.1, h1.2]

/-! ## Rollback correctness of the policy-4 cleanup -/

theorem cleanup_restores (st0 : Stages) :
    ∀ (saved : List (Nat × Forward)) (st : Stages),
      MutInv st0 saved st → (∀ p, WFsig (st0 p).extended_signature) →
      ∀ q, cleanup saved st q = st0 q := by
  intro saved
  induction saved with
  | nil =>
    intro st hinv _ q
    exact hinv.2.2.1 q (by simp)
  | cons e rest ih =>
    intro st hinv hwf q
    obtain ⟨hnd, hsv, huntouched, hmut⟩ := hinv
    have hmem : e.1 ∈ ((e :: rest).map Prod.fst) := by simp
    obtain ⟨hsig, ⟨em, hfwd⟩, hcfg⟩ := hmut e.1 hmem
    have hsaved : e.2 = (st0 e.1).forward := hsv e.1 e.2 (List.mem_cons_self e rest)
    have hrestored : restorePred (st e.1) e.2 = st0 e.1 := by
      unfold restorePred
      rw [hsig, revert_extend _ (hwf e.1), hsaved, hcfg]
    have hndrest : (rest.map Prod.fst).Nodup := by
      simp only [List.map_cons, List.nodup_cons] at hnd
      exact hnd.2
    have hnotmem : e.1 ∉ rest.map Prod.fst := by
      simp only [List.map_cons, List.nodup_cons] at hnd
      exact hnd.1
    have hstep : cleanup (e :: rest) st =
        cleanup rest (setStage st e.1 (restorePred (st e.1) e.2)) := rfl
    rw [hstep]
    apply ih
    · refine ⟨hndrest, ?_, ?_, ?_⟩
      · intro p f hpf
        exact hsv p f (List.mem_cons_of_mem e hpf)
      · intro q' hq'
        by_cases hqe : q' = e.1
        · rw [hqe]
          simp only [setStage, if_pos rfl]
          exact hrestored
        · have : q' ∉ ((e :: rest).map Prod.fst) := by
            simp only [List.map_cons, List.mem_cons]
            rintro (h | h)
            · exact hqe h
            · exact hq' h
          simp only [setStage, if_neg hqe]
          exact huntouched q' this
      · intro p hp
        have hpe : p ≠ e.1 := fun hk => hnotmem (hk ▸ hp)
        simp only [setStage, if_neg hpe]
        exact hmut p (by simp only [List.map_cons, List.mem_cons]; exact Or.inr hp)
    · exact hwf

/-! ## The policy-4 loop preserves the rollback invariant -/

theorem fb_loop_inv {ρ : Type} (behavior : Nat → FuncOutcome ρ) (maxB : Nat)
    (st0 : Stages)
    (hD : ∀ j j' p, 1 ≤ j → j < j' → j' ≤ maxB →
      lastBlame behavior j = some p → lastBlame behavior j' = some p → False) :
    ∀ (fuel i : Nat) (bt : Option Nat) (em : String)
      (saved : List (Nat × Forward)) (st : Stages),
      i + fuel = maxB + 1 →
      bt = lastBlame behavior i →
      MutInv st0 saved st →
      (∀ q, q ∈ saved.map Prod.fst →
        ∃ j, 1 ≤ j ∧ j < i ∧ lastBlame behavior j = some q) →
      MutInv st0
        (assert_latest_feedback_transform_go behavior fuel i bt em saved st).saved
        (assert_latest_feedback_transform_go behavior fuel i bt em saved st).stages := by
  intro fuel
  induction fuel with
  | zero =>
    intro i bt em saved st hfuel hbt hinv hsub
    simp only [assert_latest_feedback_transform_go]
    exact hinv
  | succ f ih =>
    intro i bt em saved st hfuel hbt hinv hsub
    have hstep : MutInv st0 (savMutate i bt saved st) (stMutate i bt em st) ∧
        (∀ q, q ∈ (savMutate i bt saved st).map Prod.fst →
          ∃ j, 1 ≤ j ∧ j ≤ i ∧ lastBlame behavior j = some q) := by
      cases hbtc : bt with
      | none =>
        simp only [savMutate, stMutate]
        exact ⟨hinv, fun q hq => by
          obtain ⟨j, h1, h2, h3⟩ := hsub q hq
          exact ⟨j, h1, by omega, h3⟩⟩
      | some p =>
        have hi : 0 < i := by
          rcases Nat.eq_zero_or_pos i with h0 | h0
          · rw [h0] at hbt
            rw [hbtc] at hbt
            simp [lastBlame] at hbt
          · exact h0
        have hile : i ≤ maxB := by omega
        obtain ⟨hnd, hsv, huntouched, hmut⟩ := hinv
        have hpnot : p ∉ saved.map Prod.fst := by
          intro hpmem
          obtain ⟨j, h1, h2, h3⟩ := hsub p hpmem
          exact hD j i p h1 h2 hile h3 (by rw [← hbt, hbtc])
        have hstp : st p = st0 p := huntouched p hpnot
        have hsavedeq : savMutate i (some p) saved st =
            saved ++ [(p, (st0 p).forward)] := by
          simp only [savMutate, if_pos hi]
          rw [dictInsert_of_not_mem hpnot, hstp]
        have hsteq : stMutate i (some p) em st = setStage st p (mutatePred (st p) em) := by
          simp only [stMutate, if_pos hi]
        constructor
        · rw [hsavedeq, hsteq]
          refine ⟨?_, ?_, ?_, ?_⟩
          · rw [List.map_append]
            rw [List.nodup_append]
            refine ⟨hnd, by simp, ?_⟩
            intro a ha
            simp only [List.map_cons, List.map_nil, List.mem_singleton]
            intro hap
            exact hpnot (hap ▸ ha)
          · intro q fq hqf
            rcases List.mem_append.mp hqf with h | h
            · exact hsv q fq h
            · simp only [List.mem_singleton, Prod.mk.injEq] at h
              rw [h.2, ← h.1]
          · intro q hq
            rw [List.map_append] at hq
            have hqp : q ≠ p := by
              intro hk
              apply hq
              simp [hk]
            have hqsaved : q ∉ saved.map Prod.fst := by
              intro hk
              apply hq
              rw [List.mem_append]
              exact Or.inl hk
            simp only [setStage, if_neg hqp]
            exact huntouched q hqsaved
          · intro q hq
            rw [List.map_append] at hq
            rcases List.mem_append.mp hq with h | h
            · have hqp : q ≠ p := fun hk => hpnot (hk ▸ h)
              simp only [setStage, if_neg hqp]
              exact hmut q h
            · simp only [List.map_cons, List.map_nil, List.mem_singleton] at h
              rw [h]
              refine ⟨?_, ⟨em, ?_⟩, ?_⟩ <;> simp [setStage, mutatePred, hstp]
        · intro q hq
          rw [hsavedeq, List.map_append] at hq
          rcases List.mem_append.mp hq with h | h
          · obtain ⟨j, h1, h2, h3⟩ := hsub q h
            exact ⟨j, h1, by omega, h3⟩
          · simp only [List.map_cons, List.map_nil, List.mem_singleton] at h
            refine ⟨i, hi, Nat.le_refl i, ?_⟩
            rw [← hbt, hbtc, h]
    obtain ⟨hinv', hsub'⟩ := hstep
    cases hb : behavior i with
    | ok r =>
      simp only [assert_latest_feedback_transform_go, hb]
      exact hinv'
    | otherError =>
      simp only [assert_latest_feedback_transform_go, hb]
      exact hinv'
    | assertFail m tr =>
      simp only [assert_latest_feedback_transform_go, hb]
      have hbt' : nextBlame bt tr = lastBlame behavior (i + 1) := by
        have hlb : lastBlame behavior (i + 1) = nextBlame (lastBlame behavior i) tr := by
          simp [lastBlame, hb]
        rw [hlb, hbt]
      exact ih (i + 1) (nextBlame bt tr) m (savMutate i bt saved st)
        (stMutate i bt em st) (by omega) hbt' hinv'
        (fun q hq => by
          obtain ⟨j, h1, h2, h3⟩ := hsub' q hq
          exact ⟨j, h1, by omega, h3⟩)

/-! ## Exit-shape helpers for the wrapped calls -/

theorem fb_saved_eq {ρ : Type} (behavior : Nat → FuncOutcome ρ) (maxB : Nat)
    (st0 : Stages) :
    (assert_latest_feedback_transform behavior maxB st0).saved =
      (assert_latest_feedback_transform_go behavior (maxB + 1) 0 none "" [] st0).saved := by
  unfold assert_latest_feedback_transform
  dsimp only
  split <;> rfl

theorem fb_not_raised {ρ : Type} (behavior : Nat → FuncOutcome ρ) (maxB : Nat)
    (st0 : Stages)
    (h : (assert_latest_feedback_transform_go behavior (maxB + 1) 0 none "" [] st0).raised
      = false) :
    (assert_latest_feedback_transform behavior maxB st0).final =
      cleanup (assert_latest_feedback_transform_go behavior (maxB + 1) 0 none "" [] st0).saved
        (assert_latest_feedback_transform_go behavior (maxB + 1) 0 none "" [] st0).stages ∧
    (assert_latest_feedback_transform behavior maxB st0).exit =
      RunExit.returns
        (assert_latest_feedback_transform_go behavior (maxB + 1) 0 none "" [] st0).res := by
  unfold assert_latest_feedback_transform
  dsimp only
  rw [if_neg (by rw [h]; exact Bool.false_ne_true)]
  exact ⟨rfl, rfl⟩

theorem fb_raised {ρ : Type} (behavior : Nat → FuncOutcome ρ) (maxB : Nat)
    (st0 : Stages)
    (h : (assert_latest_feedback_transform_go behavior (maxB + 1) 0 none "" [] st0).raised
      = true) :
    (assert_latest_feedback_transform behavior maxB st0).final =
      (assert_latest_feedback_transform_go behavior (maxB + 1) 0 none "" [] st0).stages ∧
    (assert_latest_feedback_transform behavior maxB st0).exit = RunExit.raisesFunc := by
  unfold assert_latest_feedback_transform
  dsimp only
  rw [if_pos h]
  exact ⟨rfl, rfl⟩

theorem lt_raised {ρ : Type} (behavior : Nat → FuncOutcome ρ) (maxB : Nat)
    (st0 : Stages)
    (h : (assert_latest_transform_go behavior (maxB + 1) 0 none st0).raised = true) :
    (assert_latest_transform behavior maxB st0).exit = RunExit.raisesFunc := by
  unfold assert_latest_transform
  dsimp only
  rw [h]
  rfl

/-- A forward entry point is never structurally equal to a wrapper around
itself. -/
theorem wrapped_ne :
    ∀ (f : Forward) (ds : List (String × String)), Forward.wrapped ds f ≠ f := by
  intro f
  induction f with
  | base n =>
    intro ds h
    exact Forward.noConfusion h
  | wrapped ds' f' ih =>
    intro ds h
    injection h with h1 h2
    exact ih ds' h2

/-! ## Claim theorems -/

/-- Claim C1 (code bug): run policy 4 with `max_backtracks = 2` on a run
where stage 0 is blamed on attempts 0 and 1 and attempt 2 succeeds.  At the
second blame the bookkeeping entry for stage 0 is overwritten with the
already-wrapped forward, so after the loop the stage's invoke entry point
is restored to the once-wrapped function of the first mutation — not to the
pre-run original — although its contract is restored.  The claim that every
blamed stage is restored to its pre-run originals, including when the same
stage is blamed on two attempts, is therefore violated by the code. -/
theorem claim_C1_code_bug :
    (assert_latest_feedback_transform behC1 2 stConst).exit =
      RunExit.returns (some 7) ∧
    ((assert_latest_feedback_transform behC1 2 stConst).final 0).extended_signature =
      (stConst 0).extended_signature ∧
    ((assert_latest_feedback_transform behC1 2 stConst).final 0).forward =
      Forward.wrapped [("feedback", "e0")] (Forward.base 0) ∧
    ((assert_latest_feedback_transform behC1 2 stConst).final 0).forward ≠
      (stConst 0).forward := by
  refine ⟨by decide, by decide, by decide, by decide⟩

/-- Claim C3 (code bug): blind retry conforms — with `max_backtracks = 2`
and every attempt failing, it performs exactly 3 invocations and returns an
absent result without raising.  But global perturbation
(`assert_update_transform`) violates the claim: on the same all-failing run
with empty traces it reads the never-initialised `backtrack_to` at the
start of attempt 1 and propagates `UnboundLocalError` after a single
invocation instead of performing the remaining attempts and returning
`None`. -/
theorem claim_C3_code_bug :
    assert_transform behEmptyTrace 2 = (RunExit.returns none, 3) ∧
    (assert_update_transform behEmptyTrace (7 / 10) 2).1 = RunExit.raisesUnbound ∧
    (assert_update_transform behEmptyTrace (7 / 10) 2).2.length = 1 := by
  refine ⟨by decide, by decide, by decide⟩

/-- Claim C4 (code bug): with `max_backtracks = 1` and attempt 0 failing
while the trace is empty, `assert_update_transform` does not retry: the
guard `i > 0 and backtrack_to is not None` of attempt 1 reads the
never-assigned `backtrack_to` and raises `UnboundLocalError`, so only one
invocation is performed and no `None` result is returned, contradicting the
claim that the empty-trace state is logged but not fatal. -/
theorem claim_C4_code_bug :
    (assert_update_transform behEmptyTrace (7 / 10) 1).1 = RunExit.raisesUnbound ∧
    (assert_update_transform behEmptyTrace (7 / 10) 1).2.length = 1 := by
  refine ⟨by decide, by decide⟩

/-- Claim C6: constructing an Assertion evaluates its predicate immediately
on the stored arguments; a boolean `true` result makes construction succeed
normally, and a boolean `false` result raises an assertion failure whose
message equals the supplied `msg` keyword argument and whose trace snapshot
equals the trace visible at that moment. -/
theorem claim_C6_assert_eager
    (f : List String → List (String × String) → PredResult)
    (args : List String) (kw : List (String × String)) (tr : List Nat) (m : String)
    (hm : dictGet "msg" kw = some m) :
    (f args (assertFields kw).2 = PredResult.bool true →
      assertNew f args kw tr = AssertOutcome.ok) ∧
    (f args (assertFields kw).2 = PredResult.bool false →
      assertNew f args kw tr = AssertOutcome.fail m tr) := by
  have hfst : (assertFields kw).1 = m := by
    unfold assertFields
    rw [hm]
  constructor
  · intro hb
    unfold assertNew
    rw [hb]
    rfl
  · intro hb
    unfold assertNew
    rw [hb, hfst]
    rfl

/-- Claim C6 witness: a predicate returning `false` under message `bad`
raises the assertion failure carrying that message and the current trace. -/
theorem claim_C6_witness :
    assertNew (fun _ _ => PredResult.bool false) [] [("msg", "bad")] [3] =
      AssertOutcome.fail "bad" [3] :=
  (claim_C6_assert_eager (fun _ _ => PredResult.bool false) [] [("msg", "bad")] [3]
    "bad" (by decide)).2 rfl

/-- Claim C9: contract revert is idempotent — reverting the same field name
twice yields the same contract as reverting it once — and reverting a field
name absent from the contract is a no-op that raises no error. -/
theorem claim_C9_revert_idempotent (t : Template) (k : String) :
    revert_predictor_signature (revert_predictor_signature t [k]) [k] =
      revert_predictor_signature t [k] ∧
    (dictGet k t.kwargs = none → revert_predictor_signature t [k] = t) := by
  constructor
  · unfold revert_predictor_signature
    simp only [List.foldl_cons, List.foldl_nil]
    rw [dictPop_idem]
  · intro h
    unfold revert_predictor_signature
    simp only [List.foldl_cons, List.foldl_nil]
    have hpop : dictPop k t.kwargs = t.kwargs := by
      apply dictPop_of_forall_ne
      intro e he hk
      have hmem : k ∈ t.kwargs.map Prod.fst := hk ▸ List.mem_map_of_mem Prod.fst he
      have hs := (dictGet_isSome_iff_mem k t.kwargs).mpr hmem
      rw [h] at hs
      simp at hs
    rw [hpop]

/-- Claim C9 witness: reverting the absent field name `zzz` from the
example signature leaves it unchanged. -/
theorem claim_C9_witness : revert_predictor_signature T0 ["zzz"] = T0 :=
  (claim_C9_revert_idempotent T0 "zzz").2 (by decide)

/-- Claim C10: constructing an Assert without a `msg` keyword argument
stores the empty string as the failure message; in every case the `msg` key
is removed from the keyword arguments before the predicate is invoked, the
remaining keyword arguments are readable unchanged, and the predicate is
applied to exactly the stored positional arguments and the stripped keyword
arguments. -/
theorem claim_C10_msg_handling (kw : List (String × String)) :
    (dictGet "msg" kw = none → assertFields kw = ("", kw)) ∧
    dictGet "msg" (assertFields kw).2 = none ∧
    (∀ k, k ≠ "msg" → dictGet k (assertFields kw).2 = dictGet k kw) ∧
    (∀ (f : List String → List (String × String) → PredResult)
      (args : List String) (tr : List Nat),
      assertNew f args kw tr =
        assertRaise (f args (assertFields kw).2) (assertFields kw).1 tr) := by
  refine ⟨?_, ?_, ?_, fun f args tr => rfl⟩
  · intro h
    unfold assertFields
    rw [h]
  · cases hm : dictGet "msg" kw with
    | some m =>
      have h2 : (assertFields kw).2 = dictPop "msg" kw := by
        unfold assertFields
        rw [hm]
      rw [h2]
      exact dictGet_pop_self "msg" kw
    | none =>
      have h2 : (assertFields kw).2 = kw := by
        unfold assertFields
        rw [hm]
      rw [h2]
      exact hm
  · intro k hk
    cases hm : dictGet "msg" kw with
    | some m =>
      have h2 : (assertFields kw).2 = dictPop "msg" kw := by
        unfold assertFields
        rw [hm]
      rw [h2]
      exact dictGet_pop_ne hk kw
    | none =>
      have h2 : (assertFields kw).2 = kw := by
        unfold assertFields
        rw [hm]
      rw [h2]

/-- Claim C10 witness: without `msg` the stored message is empty and the
kwargs pass through; with `msg` present the other keys are still readable. -/
theorem claim_C10_witness :
    assertFields [("q", "1")] = ("", [("q", "1")]) ∧
    dictGet "q" (assertFields [("msg", "m"), ("q", "1")]).2 = some "1" := by
  refine ⟨(claim_C10_msg_handling [("q", "1")]).1 (by decide), ?_⟩
  rw [(claim_C10_msg_handling [("msg", "m"), ("q", "1")]).2.2.1 "q" (by decide)]
  decide

/-- Claim C7: a non-boolean predicate result raises the distinct
invalid-assertion error (`ValueError`), never the assertion-failure error,
and no orchestrator policy retries it: when attempts `0 .. k-1` fail their
assertions (with non-empty traces) and attempt `k ≤ max_backtracks`
raises the non-assertion error, each of the four wrapped calls propagates
it immediately after exactly `k + 1` invocations. -/
theorem claim_C7_invalid_assertion {ρ : Type} (behavior : Nat → FuncOutcome ρ)
    (maxB k : Nat) (base : Rat) (st0 : Stages)
    (hf : ∀ j, j < k → ∃ m tr, behavior j = FuncOutcome.assertFail m tr ∧ tr ≠ [])
    (hk : behavior k = FuncOutcome.otherError) (hle : k ≤ maxB) :
    (∀ m tr, assertRaise PredResult.nonBool m tr = AssertOutcome.invalid) ∧
    assert_transform behavior maxB = (RunExit.raisesFunc, k + 1) ∧
    ((assert_update_transform behavior base maxB).1 = RunExit.raisesFunc ∧
      (assert_update_transform behavior base maxB).2.length = k + 1) ∧
    ((assert_latest_transform behavior maxB st0).exit = RunExit.raisesFunc ∧
      (assert_latest_transform behavior maxB st0).log.length = k + 1) ∧
    ((assert_latest_feedback_transform behavior maxB st0).exit = RunExit.raisesFunc ∧
      (assert_latest_feedback_transform behavior maxB st0).log.length = k + 1) := by
  have hf0 : ∀ j, j < k → ∃ m tr, behavior (0 + j) = FuncOutcome.assertFail m tr := by
    intro j hj
    obtain ⟨m, tr, hm, _⟩ := hf j hj
    exact ⟨m, tr, by rw [Nat.zero_add]; exact hm⟩
  have hf0t : ∀ j, j < k →
      ∃ m tr, behavior (0 + j) = FuncOutcome.assertFail m tr ∧ tr ≠ [] := by
    intro j hj
    obtain ⟨m, tr, hm, ht⟩ := hf j hj
    exact ⟨m, tr, by rw [Nat.zero_add]; exact hm, ht⟩
  have hk0 : behavior (0 + k) = FuncOutcome.otherError := by
    rw [Nat.zero_add]
    exact hk
  refine ⟨fun m tr => rfl, ?_, ?_, ?_, ?_⟩
  · exact at_err behavior k (maxB + 1) 0 hf0 hk0 (by omega)
  · exact ut_err behavior base k (maxB + 1) 0 none hf0t hk0 (by omega)
      (fun h => absurd h (Nat.lt_irrefl 0))
  · have h3 := lt_err behavior k (maxB + 1) 0 none st0 hf0 hk0 (by omega)
    exact ⟨lt_raised behavior maxB st0 h3.1, by rw [lt_log_eq]; exact h3.2⟩
  · have h4 := fb_err behavior k (maxB + 1) 0 none "" [] st0 hf0 hk0 (by omega)
    exact ⟨(fb_raised behavior maxB st0 h4.1).2, by rw [fb_log_eq]; exact h4.2⟩

/-- Claim C7 witness: attempt 0 fails blaming stage 2 and attempt 1 raises
the non-assertion error; policies 1 and 4 propagate it after exactly two
invocations. -/
theorem claim_C7_witness :
    assert_transform behC7w 2 = (RunExit.raisesFunc, 2) ∧
    (assert_latest_feedback_transform behC7w 2 stConst).exit = RunExit.raisesFunc := by
  have happ := claim_C7_invalid_assertion behC7w 2 1 (7 / 10) stConst
    (fun j hj => by
      match j, hj with
      | 0, _ => exact ⟨"f0", [2], rfl, by decide⟩)
    rfl (by omega)
  exact ⟨happ.2.1, happ.2.2.2.2.1⟩

/-- Claim C5 counterexample: with `max_backtracks = 2`, attempt 0 fails
blaming stage 0, attempt 1 fails with an empty trace.  The claim says no
stage configuration changes for attempt 2, yet before attempt 2 the stale
blame target (stage 0) has its temperature changed again, from
`0.7 + 0.001` to `0.7 + 0.002`. -/
theorem claim_C5_counterexample :
    behC5 1 = FuncOutcome.assertFail "b" [] ∧
    ((assert_latest_transform behC5 2 stConst).log.get? 1).map
      (fun s => dictGet "temperature" (s.stages 0).config) =
      some (some (7 / 10 + (1 / 1000) * ((1 : Nat) : Rat))) ∧
    ((assert_latest_transform behC5 2 stConst).log.get? 2).map
      (fun s => dictGet "temperature" (s.stages 0).config) =
      some (some (7 / 10 + (1 / 1000) * ((2 : Nat) : Rat))) ∧
    7 / 10 + (1 / 1000) * ((1 : Nat) : Rat) ≠
      7 / 10 + (1 / 1000) * ((2 : Nat) : Rat) := by
  refine ⟨by decide, by rfl, by rfl, by norm_num⟩

/-- Claim C5 (amended): before retry attempt i the stage perturbed is the
most recently blamed stage — the stage of the last entry of the most recent
non-empty failure trace so far, which persists across failures with empty
traces.  That stage's temperature is set to `0.7 + 0.001 * i` while its
contract, its invoke entry point and every other stage are unchanged; when
no failure so far carried a non-empty trace, every stage still holds its
pre-run state, and attempt 0 always runs on the pre-run state. -/
theorem claim_C5_targeted_perturbation {ρ : Type} (behavior : Nat → FuncOutcome ρ)
    (maxB : Nat) (st0 : Stages) (i : Nat) (sI sI1 : LSnap)
    (hI : (assert_latest_transform behavior maxB st0).log.get? i = some sI)
    (hI1 : (assert_latest_transform behavior maxB st0).log.get? (i + 1) = some sI1) :
    sI1.bt = lastBlame behavior (i + 1) ∧
    (∀ p, sI1.bt = some p →
      dictGet "temperature" (sI1.stages p).config =
        some (7 / 10 + (1 / 1000) * ((i + 1 : Nat) : Rat)) ∧
      (sI1.stages p).extended_signature = (sI.stages p).extended_signature ∧
      (sI1.stages p).forward = (sI.stages p).forward ∧
      (∀ q, q ≠ p → sI1.stages q = sI.stages q)) ∧
    (sI1.bt = none → ∀ q, sI1.stages q = st0 q) := by
  rw [lt_log_eq] at hI hI1
  obtain ⟨m, tr, hb, hbt, hst⟩ :=
    lt_step behavior (maxB + 1) 0 none st0 i sI sI1 hI hI1
  have hblame : sI1.bt = lastBlame behavior (0 + (i + 1)) :=
    lt_blame behavior (maxB + 1) 0 none st0 (i + 1) sI1 rfl hI1
  rw [Nat.zero_add] at hblame
  rw [show 0 + i + 1 = i + 1 by omega] at hst
  refine ⟨hblame, ?_, ?_⟩
  · intro p hp
    rw [hst, hp]
    have hmeq : ltMutate (i + 1) (some p) sI.stages =
        setStage sI.stages p
          (updateTempPred (sI.stages p) (7 / 10 + (1 / 1000) * ((i + 1 : Nat) : Rat))) := by
      simp [ltMutate]
    rw [hmeq]
    refine ⟨?_, ?_, ?_, ?_⟩
    · simp only [setStage, if_pos rfl, updateTempPred]
      exact dictGet_insert_self "temperature" (sI.stages p).config _
    · simp [setStage, updateTempPred]
    · simp [setStage, updateTempPred]
    · intro q hq
      simp [setStage, hq]
  · intro hnone
    have h2 := lt_none behavior (maxB + 1) 0 none st0 (i + 1) sI1 hI1 hnone
    exact h2.2

/-- Claim C5 witness: attempt 0 fails blaming stage 4, so before attempt 1
stage 4's temperature is `0.7 + 0.001` and every other stage is unchanged. -/
theorem claim_C5_witness :
    dictGet "temperature"
      ((setStage stConst 4 (updateTempPred (stConst 4)
        (7 / 10 + (1 / 1000) * ((1 : Nat) : Rat))) 4).config) =
      some (7 / 10 + (1 / 1000) * ((1 : Nat) : Rat)) := by
  have happ := claim_C5_targeted_perturbation behC5w 1 stConst 0
    ⟨none, stConst⟩
    ⟨some 4, setStage stConst 4 (updateTempPred (stConst 4)
      (7 / 10 + (1 / 1000) * ((1 : Nat) : Rat)))⟩
    rfl rfl
  exact (happ.2.1 4 rfl).1

/-- Claim C8: before each retry attempt the blamed stage's contract is
extended with the feedback input field while every output field and every
other input field is preserved, and the stage's invoke entry point is
wrapped so that — unless the caller supplies the `feedback` argument
itself — the underlying original forward receives the message of the most
recent assertion failure, re-derived from the newest failure on each
subsequent attempt. -/
theorem claim_C8_feedback_injection {ρ : Type} (behavior : Nat → FuncOutcome ρ)
    (maxB : Nat) (st0 : Stages) (i : Nat) (sPrev sCur : FBSnap)
    (m : String) (tr : List Nat) (p : Nat)
    (hPrev : (assert_latest_feedback_transform behavior maxB st0).log.get? i =
      some sPrev)
    (hCur : (assert_latest_feedback_transform behavior maxB st0).log.get? (i + 1) =
      some sCur)
    (hfail : behavior i = FuncOutcome.assertFail m tr)
    (hbt : sCur.bt = some p)
    (hnd : ((sPrev.stages p).extended_signature.kwargs.map Prod.fst).Nodup)
    (hfbO : "feedback" ∉
      ((sPrev.stages p).extended_signature.kwargs.filter isOutputE).map Prod.fst) :
    dictGet "feedback" (sCur.stages p).extended_signature.kwargs =
      some feedbackField ∧
    (sCur.stages p).extended_signature.kwargs.filter isOutputE =
      (sPrev.stages p).extended_signature.kwargs.filter isOutputE ∧
    (sCur.stages p).extended_signature.kwargs.filter isKeptInputE =
      (sPrev.stages p).extended_signature.kwargs.filter isKeptInputE ∧
    (sCur.stages p).forward =
      Forward.wrapped [("feedback", m)] (sPrev.stages p).forward ∧
    (∀ kw, dictGet "feedback" (baseArgs ((sCur.stages p).forward) kw) =
      some ((dictGet "feedback" kw).getD m)) := by
  rw [fb_log_eq] at hPrev hCur
  obtain ⟨m', tr', hb', hbt', hem', hst'⟩ :=
    fb_step behavior (maxB + 1) 0 none "" [] st0 i sPrev sCur hPrev hCur
  rw [Nat.zero_add] at hb'
  injection hfail.symm.trans hb' with hm htr
  rw [show 0 + i + 1 = i + 1 by omega] at hst'
  have hcurp : sCur.stages p = mutatePred (sPrev.stages p) m := by
    rw [hst', hbt, ← hm]
    simp [stMutate, setStage]
  rw [hcurp]
  refine ⟨?_, ?_, ?_, rfl, ?_⟩
  · exact extend_get_feedback (sPrev.stages p).extended_signature hnd hfbO
  · exact extend_preserves_outputs (sPrev.stages p).extended_signature hnd hfbO
  · exact extend_preserves_inputs (sPrev.stages p).extended_signature hnd hfbO
  · intro kw
    exact feedback_default (sPrev.stages p).forward m kw

/-- Claim C8 witness: after the failure of attempt 0 with message `boom`
blaming stage 0, the mutated stage's forward is the wrap of the original
with default `feedback := boom`, and invoking it with no arguments hands
`boom` to the original forward. -/
theorem claim_C8_witness :
    (setStage stConst 0 (mutatePred (stConst 0) "boom") 0).forward =
      Forward.wrapped [("feedback", "boom")] (stConst 0).forward ∧
    dictGet "feedback"
      (baseArgs ((setStage stConst 0 (mutatePred (stConst 0) "boom") 0).forward) []) =
      some "boom" := by
  have happ := claim_C8_feedback_injection behC8w 1 stConst 0
    ⟨none, "", stConst⟩
    ⟨some 0, "boom", setStage stConst 0 (mutatePred (stConst 0) "boom")⟩
    "boom" [0] 0 rfl rfl rfl rfl (by decide) (by decide)
  exact ⟨happ.2.2.2.1, happ.2.2.2.2 []⟩

/-- Claim C2 counterexample: with `max_backtracks = 1`, attempt 0 fails
blaming stage 0 and attempt 1 raises a non-assertion exception.  The
revert block is not in a `finally`, so the exception propagates with the
mutation still in place: stage 0 keeps the wrapped forward and the extended
contract, contradicting the claim that restoration executes on this exit
path. -/
theorem claim_C2_counterexample :
    (assert_latest_feedback_transform behC2 1 stConst).exit = RunExit.raisesFunc ∧
    ((assert_latest_feedback_transform behC2 1 stConst).final 0).forward =
      Forward.wrapped [("feedback", "e0")] (Forward.base 0) ∧
    ((assert_latest_feedback_transform behC2 1 stConst).final 0).extended_signature ≠
      (stConst 0).extended_signature := by
  refine ⟨by decide, by decide, by decide⟩

/-- Claim C2 (amended): when every pre-run contract is well formed and no
stage is blamed on two different retry attempts, the restoration executes
on the success and exhaustion exit paths — the wrapped call returns and
every stage of the shared map equals its pre-run state — while on
propagation of a non-assertion exception no restoration occurs: the call
raises and every recorded stage still differs from its pre-run state,
carrying the extended contract and a wrapped forward over its pre-run
original. -/
theorem claim_C2_restoration {ρ : Type} (behavior : Nat → FuncOutcome ρ)
    (maxB : Nat) (st0 : Stages)
    (hwf : ∀ p, WFsig (st0 p).extended_signature)
    (hD : ∀ j j' p, 1 ≤ j → j < j' → j' ≤ maxB →
      lastBlame behavior j = some p → lastBlame behavior j' = some p → False) :
    (∀ r, (assert_latest_feedback_transform behavior maxB st0).exit =
        RunExit.returns r →
      ∀ q, (assert_latest_feedback_transform behavior maxB st0).final q = st0 q) ∧
    ((assert_latest_feedback_transform behavior maxB st0).exit = RunExit.raisesFunc →
      ∀ p, p ∈ (assert_latest_feedback_transform behavior maxB st0).saved.map Prod.fst →
        (assert_latest_feedback_transform behavior maxB st0).final p ≠ st0 p ∧
        (∃ e, ((assert_latest_feedback_transform behavior maxB st0).final p).forward =
          Forward.wrapped [("feedback", e)] (st0 p).forward) ∧
        ((assert_latest_feedback_transform behavior maxB st0).final p).extended_signature =
          extend_predictor_signature (st0 p).extended_signature
            [("feedback", feedbackField)]) := by
  have hloop := fb_loop_inv behavior maxB st0 hD (maxB + 1) 0 none "" [] st0
    (by omega) rfl
    ⟨List.nodup_nil, fun p f h => absurd h (List.not_mem_nil _),
      fun q _ => rfl, fun p h => absurd h (List.not_mem_nil _)⟩
    (fun q h => absurd h (List.not_mem_nil _))
  constructor
  · intro r hexit q
    cases hr : (assert_latest_feedback_transform_go behavior (maxB + 1) 0
        none "" [] st0).raised with
    | true =>
      rw [(fb_raised behavior maxB st0 hr).2] at hexit
      exact absurd hexit (by simp)
    | false =>
      rw [(fb_not_raised behavior maxB st0 hr).1]
      exact cleanup_restores st0 _ _ hloop hwf q
  · intro hexit p hp
    cases hr : (assert_latest_feedback_transform_go behavior (maxB + 1) 0
        none "" [] st0).raised with
    | false =>
      rw [(fb_not_raised behavior maxB st0 hr).2] at hexit
      exact absurd hexit (by simp)
    | true =>
      rw [fb_saved_eq] at hp
      rw [(fb_raised behavior maxB st0 hr).1]
      obtain ⟨hsig, ⟨e, hfwd⟩, _⟩ := hloop.2.2.2 p hp
      refine ⟨?_, ⟨e, hfwd⟩, hsig⟩
      intro heq
      rw [heq] at hfwd
      exact wrapped_ne (st0 p).forward [("feedback", e)] hfwd.symm

/-- Claim C2 witness: on a run where attempt 0 fails blaming stage 5 and
attempt 1 succeeds, the wrapped call returns and stage 5 (and every other
stage) is back to its pre-run state. -/
theorem claim_C2_witness :
    (assert_latest_feedback_transform behC2w 1 stConst).final 5 = stConst 5 :=
  (claim_C2_restoration behC2w 1 stConst (fun _ => (by decide : WFsig T0))
    (fun j j' p h1 h2 h3 _ _ => by omega)).1 (some 3) (by decide) 5

end DspyAssertions
